import Mathlib

/-!
Verification of the PikPakAPI core: the path resolver with cache
(`PikPakApi.path_to_id`) and the resilient request pipeline
(`PikPakApi._make_request` / `_handle_response` / `refresh_access_token`),
embedded shallowly from `src/pikpakapi/__init__.py`.

Remote interactions are modelled as oracles: the paged listing call
(`file_list`) is a function from (parent id, page token) to a listing
response, folder creation is a function from (name, parent id) to the new
folder id, and the HTTP transport of the pipeline is a function from the
global request index to a response envelope.  Recursion that is unbounded
in Python (the retry/refresh cycle, the pagination loop) is made total
with an explicit fuel parameter; running out of fuel is a distinguished
outcome, so termination claims are statable.
-/

set_option autoImplicit false

namespace PikPak

/-! ### Strings: Python `split("/")`, `strip()`, `"/".join(...)` -/

/-- Python `path.split("/")`, character-level: split on every `'/'`,
keeping empty pieces. `acc` holds the current piece, reversed. -/
def splitSlashAux : List Char → List Char → List String
  | [], acc => [String.mk acc.reverse]
  | c :: cs, acc =>
    if c = '/' then String.mk acc.reverse :: splitSlashAux cs []
    else splitSlashAux cs (c :: acc)

/-- Python `path.split("/")`. -/
def splitSlash (s : String) : List String := splitSlashAux s.data []

/-- Python `p.strip()`: drop whitespace from both ends. -/
def pyStrip (s : String) : String :=
  String.mk (((s.data.dropWhile Char.isWhitespace).reverse.dropWhile Char.isWhitespace).reverse)

/-- Python `"/".join(segs)`. -/
def joinSlash : List String → String
  | [] => ""
  | [s] => s
  | s :: rest => s ++ "/" ++ joinSlash rest

/-- The cache key / path expression `"/" + "/".join(segs)` used throughout
`path_to_id`. -/
def mkKey (segs : List String) : String := "/" ++ joinSlash segs

/-- Segment normalization of `path_to_id`:
`paths = path.split("/")` then `[p.strip() for p in paths if len(p) > 0]`.
Note the emptiness filter runs on the *unstripped* pieces. -/
def normSegs (path : String) : List String :=
  ((splitSlash path).filter (fun p => 0 < p.length)).map pyStrip

/-- Python `"folder" in kind`-style check: `kind.find("folder") != -1`. -/
def hasFolderSub : List Char → Bool
  | [] => false
  | c :: cs => List.isPrefixOf "folder".data (c :: cs) || hasFolderSub cs

/-- `"folder" if f.get("kind", "").find("folder") != -1 else "file"`. -/
def fileType (kind : String) : String :=
  if hasFolderSub kind.data then "folder" else "file"

/-- Python truthiness of an optional string (`None` and `""` are falsy). -/
def truthy : Option String → Bool
  | none => false
  | some s => s != ""

/-! ### Data model of the resolver -/

/-- One remote entry of a listing page (`id`, `name`, `kind`). -/
structure FileEntry where
  id : String
  name : String
  kind : String
deriving Repr, DecidableEq

/-- A listing response: `data.get("files", [])` and
`data.get("next_page_token")`. -/
structure ListResp where
  files : List FileEntry
  next_page_token : Option String
deriving Repr, DecidableEq

/-- A resolved record `{"id": ..., "name": ..., "file_type": ...}`. -/
structure PathRec where
  id : String
  name : String
  file_type : String
deriving Repr, DecidableEq

/-- The `_path_id_cache` dict: key/value pairs, newest first. -/
abbrev Cache := List (String × PathRec)

/-- Dict lookup: the most recent binding of the key wins. -/
def cacheFind (c : Cache) (k : String) : Option PathRec :=
  (c.find? (fun e => decide (e.1 = k))).map (fun e => e.2)

/-- Dict update `self._path_id_cache[k] = v`. -/
def cacheInsert (c : Cache) (k : String) (v : PathRec) : Cache := (k, v) :: c

/-- Remote calls issued by the resolver, in order: a `file_list` page
request or a `create_folder` request. -/
inductive RCall where
  | list (parent : Option String) (page_token : Option String)
  | create (name : String) (parent : Option String)
deriving Repr, DecidableEq

/-- Result of a resolution: `result = none` means the fuel ran out (the
Python loop would still be running), otherwise the returned chain. -/
structure ResolveOut where
  result : Option (List PathRec)
  cache : Cache
  trace : List RCall
deriving Repr, DecidableEq

/-! ### The resolver -/

/-- The `for f in data.get("files", [])` scan of one listing page: cache
every entry under its full prefix path and remember the record of the
last entry whose name equals the target segment (`record_of_target_path`,
carried through the loop as `target`). -/
def scanPage (segs : List String) (count : Nat) :
    List FileEntry → Cache → Option PathRec → Cache × Option PathRec
  | [], cache, target => (cache, target)
  | f :: fs, cache, target =>
    let current_path := mkKey (segs.take count ++ [f.name])
    let record : PathRec := ⟨f.id, f.name, fileType f.kind⟩
    scanPage segs count fs (cacheInsert cache current_path record)
      (if f.name = segs.getD count "" then some record else target)

/-- The `while count < len(paths)` loop of `path_to_id`, one fuel unit per
iteration.  State: `count`, `parent_id`, `next_page_token`, the chain
`path_ids`, the cache and the trace of remote calls. -/
def resolveLoop (file_list : Option String → Option String → ListResp)
    (create_folder : String → Option String → String)
    (create : Bool) (segs : List String) :
    Nat → Nat → Option String → Option String → List PathRec → Cache →
    List RCall → ResolveOut
  | 0, count, _, _, chain, cache, tr =>
    if count < segs.length then ⟨none, cache, tr⟩ else ⟨some chain, cache, tr⟩
  | fuel + 1, count, parent, tok, chain, cache, tr =>
    if count < segs.length then
      let data := file_list parent tok
      let tr := tr ++ [RCall.list parent tok]
      let scanned := scanPage segs count data.files cache none
      match scanned.2 with
      | some r =>
        resolveLoop file_list create_folder create segs fuel (count + 1)
          (some r.id) tok (chain ++ [r]) scanned.1 tr
      | none =>
        if truthy data.next_page_token &&
            (! truthy tok || decide (tok ≠ data.next_page_token)) then
          resolveLoop file_list create_folder create segs fuel count parent
            data.next_page_token chain scanned.1 tr
        else if create then
          let name := segs.getD count ""
          let fid := create_folder name parent
          let record : PathRec := ⟨fid, name, "folder"⟩
          resolveLoop file_list create_folder create segs fuel (count + 1)
            (some fid) tok (chain ++ [record])
            (cacheInsert scanned.1 (mkKey (segs.take (count + 1))) record)
            (tr ++ [RCall.create name parent])
        else ⟨some chain, scanned.1, tr⟩
    else ⟨some chain, cache, tr⟩

/-- `PikPakApi.path_to_id(path, create)`, with the listing and folder
creation calls abstracted as oracles and the client's `_path_id_cache`
passed explicitly. -/
def path_to_id (file_list : Option String → Option String → ListResp)
    (create_folder : String → Option String → String)
    (path : String) (create : Bool) (cache : Cache) (fuel : Nat) :
    ResolveOut :=
  if path = "" then ⟨some [], cache, []⟩
  else
    let segs := normSegs path
    let multi_level_paths :=
      (List.range segs.length).map (fun i => mkKey (segs.take (i + 1)))
    let path_ids := multi_level_paths.filterMap (cacheFind cache)
    let hit_cnt := path_ids.length
    if hit_cnt = segs.length then ⟨some path_ids, cache, []⟩
    else if hit_cnt = 0 then
      resolveLoop file_list create_folder create segs fuel 0 none none [] cache []
    else
      resolveLoop file_list create_folder create segs fuel hit_cnt
        ((path_ids.getLast?).map (fun r => r.id)) none path_ids cache []

/-! ### Spec-side definitions and concrete oracles -/

/-- Normalization as the spec's words describe it (claim C7): trim each
slash-separated segment, then discard every segment that is empty,
including segments that became empty after trimming. -/
def specNormSegs (path : String) : List String :=
  ((splitSlash path).map pyStrip).filter (fun p => decide (p ≠ ""))

/-- Normalization as the code actually performs it, stated in spec style:
segments empty before trimming are discarded, the survivors are trimmed
(whitespace-only segments are kept and become empty strings). -/
def specNormSegsAmended (path : String) : List String :=
  (splitSlash path).filterMap (fun p => if p = "" then none else some (pyStrip p))

/-- The record `{"id", "name", "file_type"}` built from a listed entry. -/
def recOf (f : FileEntry) : PathRec := ⟨f.id, f.name, fileType f.kind⟩

/-- The last entry of `files` whose name equals `seg`, starting from a
previously remembered candidate `t` — the accumulator of the page scan. -/
def lastMatch : List FileEntry → String → Option FileEntry → Option FileEntry
  | [], _, t => t
  | f :: fs, seg, t => lastMatch fs seg (if f.name = seg then some f else t)

/-- The chain produced when every segment is matched on the first page
listed for its parent (the last matching entry of that page wins, as in
the code's scan). -/
def chainFirstPage (file_list : Option String → Option String → ListResp) :
    Option String → List String → Option (List PathRec)
  | _, [] => some []
  | parent, seg :: rest =>
    match lastMatch (file_list parent none).files seg none with
    | none => none
    | some f =>
      (chainFirstPage file_list (some f.id) rest).map (fun c => recOf f :: c)

/-- Folder-creation oracle returning a fixed fresh id. -/
def mkNew : String → Option String → String := fun _ _ => "NEW"

/-- Remote of the end-to-end scenario: root lists `Movies` (id `F1`), the
folder `F1` lists `Action` (id `F2`). -/
def listMov : Option String → Option String → ListResp
  | none, none => ⟨[⟨"F1", "Movies", "drive#folder"⟩], none⟩
  | some "F1", none => ⟨[⟨"F2", "Action", "drive#folder"⟩], none⟩
  | _, _ => ⟨[], none⟩

/-- Remote where `Movies` only appears on the second page of the root
listing (continuation token `T`), and `Action` appears on the first page
of `F1`'s listing; a listing request for `F1` with the stale token `T`
returns nothing. -/
def listBad : Option String → Option String → ListResp
  | none, none => ⟨[], some "T"⟩
  | none, some "T" => ⟨[⟨"F1", "Movies", "drive#folder"⟩], none⟩
  | some "F1", some "T" => ⟨[], none⟩
  | some "F1", none => ⟨[⟨"F2", "Action", "drive#folder"⟩], none⟩
  | _, _ => ⟨[], none⟩

/-- Remote whose root listing contains one entry whose name contains a
slash. -/
def listSlash : Option String → Option String → ListResp
  | none, none => ⟨[⟨"X1", "b/c", "drive#folder"⟩], none⟩
  | _, _ => ⟨[], none⟩

/-- Remote that always returns an empty page with the same continuation
token `T`. -/
def listRepeat : Option String → Option String → ListResp := fun _ _ => ⟨[], some "T"⟩

/-- Remote that always returns an empty page and no continuation token. -/
def listEmpty : Option String → Option String → ListResp := fun _ _ => ⟨[], none⟩

/-! ### Basic lemmas -/

theorem string_length_pos_iff (s : String) : 0 < s.length ↔ s ≠ "" := by
  constructor
  · intro h he
    subst he
    simp at h
  · intro h
    cases s with
    | mk data =>
      cases data with
      | nil => exact absurd rfl h
      | cons c cs => simp [String.length]

theorem normSegs_eq_amended (path : String) :
    normSegs path = specNormSegsAmended path := by
  unfold normSegs specNormSegsAmended
  induction splitSlash path with
  | nil => rfl
  | cons p ps ih =>
    by_cases hp : p = ""
    · subst hp
      simpa using ih
    · have : 0 < p.length := (string_length_pos_iff p).mpr hp
      simp [List.filter, List.filterMap, this, hp, ih]

theorem cacheFind_nil (k : String) : cacheFind [] k = none := rfl

/-- With no cache hits and a non-empty segment list, `path_to_id` enters
the resolution loop at count 0 with no parent and no page token. -/
theorem path_to_id_nil_cache (file_list : Option String → Option String → ListResp)
    (create_folder : String → Option String → String)
    (path : String) (create : Bool) (fuel : Nat) (hp : path ≠ "") :
    path_to_id file_list create_folder path create [] fuel =
      if normSegs path = [] then ⟨some [], [], []⟩
      else resolveLoop file_list create_folder create (normSegs path) fuel 0
        none none [] [] [] := by
  unfold path_to_id
  simp only [hp, if_false]
  have hfm : ((List.range (normSegs path).length).map
      (fun i => mkKey ((normSegs path).take (i + 1)))).filterMap (cacheFind []) = [] := by
    simp [cacheFind_nil]
  rw [hfm]
  by_cases hs : normSegs path = []
  · simp [hs]
  · have : (normSegs path).length ≠ 0 := by
      simpa [List.length_eq_zero] using hs
    simp [hs, this.symm, Ne.symm this]

theorem lastMatch_acc (seg : String) :
    ∀ (fs : List FileEntry) (t : Option FileEntry),
      lastMatch fs seg t = ((lastMatch fs seg none).elim t some) := by
  intro fs
  induction fs with
  | nil => intro t; rfl
  | cons f fs ih =>
    intro t
    by_cases h : f.name = seg
    · simp only [lastMatch, if_pos h]
      rw [ih (some f)]
      cases lastMatch fs seg none <;> rfl
    · simp only [lastMatch, if_neg h]
      rw [ih t]

theorem scanPage_snd (segs : List String) (count : Nat) :
    ∀ (files : List FileEntry) (cache : Cache) (t : Option PathRec),
      (scanPage segs count files cache t).2 =
        ((lastMatch files (segs.getD count "") none).elim t (fun f => some (recOf f))) := by
  intro files
  induction files with
  | nil => intro cache t; rfl
  | cons f fs ih =>
    intro cache t
    simp only [scanPage, lastMatch]
    rw [ih]
    by_cases h : f.name = segs.getD count ""
    · simp only [if_pos h]
      rw [lastMatch_acc (segs.getD count "") fs (some f)]
      cases lastMatch fs (segs.getD count "") none <;> simp [recOf, h]
    · simp only [if_neg h]

/-! ### One-step characterizations of the resolution loop -/

section StepLemmas

variable (file_list : Option String → Option String → ListResp)
variable (create_folder : String → Option String → String)
variable (create : Bool) (segs : List String) (fuel count : Nat)
variable (parent tok : Option String) (chain : List PathRec)
variable (cache : Cache) (tr : List RCall)

theorem resolveLoop_done (h : ¬ count < segs.length) :
    resolveLoop file_list create_folder create segs fuel count parent tok
      chain cache tr = ⟨some chain, cache, tr⟩ := by
  cases fuel <;> simp [resolveLoop, h]

theorem resolveLoop_step_match (h : count < segs.length) (r : PathRec)
    (hscan : (scanPage segs count (file_list parent tok).files cache none).2 = some r) :
    resolveLoop file_list create_folder create segs (fuel + 1) count parent tok
        chain cache tr =
      resolveLoop file_list create_folder create segs fuel (count + 1) (some r.id)
        tok (chain ++ [r])
        (scanPage segs count (file_list parent tok).files cache none).1
        (tr ++ [RCall.list parent tok]) := by
  simp only [resolveLoop, if_pos h]
  rw [hscan]

theorem resolveLoop_step_advance (h : count < segs.length)
    (hscan : (scanPage segs count (file_list parent tok).files cache none).2 = none)
    (hg : (truthy (file_list parent tok).next_page_token &&
      (! truthy tok || decide (tok ≠ (file_list parent tok).next_page_token))) = true) :
    resolveLoop file_list create_folder create segs (fuel + 1) count parent tok
        chain cache tr =
      resolveLoop file_list create_folder create segs fuel count parent
        (file_list parent tok).next_page_token chain
        (scanPage segs count (file_list parent tok).files cache none).1
        (tr ++ [RCall.list parent tok]) := by
  simp only [resolveLoop, if_pos h]
  rw [hscan, hg]
  rfl

theorem resolveLoop_step_stop (h : count < segs.length)
    (hscan : (scanPage segs count (file_list parent tok).files cache none).2 = none)
    (hg : (truthy (file_list parent tok).next_page_token &&
      (! truthy tok || decide (tok ≠ (file_list parent tok).next_page_token))) = false) :
    resolveLoop file_list create_folder false segs (fuel + 1) count parent tok
        chain cache tr =
      ⟨some chain, (scanPage segs count (file_list parent tok).files cache none).1,
        tr ++ [RCall.list parent tok]⟩ := by
  simp only [resolveLoop, if_pos h]
  rw [hscan, hg]
  rfl

theorem resolveLoop_step_create (h : count < segs.length)
    (hscan : (scanPage segs count (file_list parent tok).files cache none).2 = none)
    (hg : (truthy (file_list parent tok).next_page_token &&
      (! truthy tok || decide (tok ≠ (file_list parent tok).next_page_token))) = false) :
    resolveLoop file_list create_folder true segs (fuel + 1) count parent tok
        chain cache tr =
      resolveLoop file_list create_folder true segs fuel (count + 1)
        (some (create_folder (segs.getD count "") parent)) tok
        (chain ++ [⟨create_folder (segs.getD count "") parent, segs.getD count "", "folder"⟩])
        (cacheInsert (scanPage segs count (file_list parent tok).files cache none).1
          (mkKey (segs.take (count + 1)))
          ⟨create_folder (segs.getD count "") parent, segs.getD count "", "folder"⟩)
        (tr ++ [RCall.list parent tok] ++ [RCall.create (segs.getD count "") parent]) := by
  simp only [resolveLoop, if_pos h]
  rw [hscan, hg]
  rfl

end StepLemmas

/-- A path with no segments after normalization returns an empty chain
immediately: no remote call, no cache write, no error. -/
theorem path_to_id_noSegs
    (file_list : Option String → Option String → ListResp)
    (create_folder : String → Option String → String)
    (path : String) (create : Bool) (cache : Cache) (fuel : Nat)
    (hseg : normSegs path = []) :
    path_to_id file_list create_folder path create cache fuel =
      ⟨some [], cache, []⟩ := by
  by_cases hp : path = ""
  · simp [path_to_id, hp]
  · unfold path_to_id
    simp [hp, hseg]

/-! ### Claim C7 -/

/-- Claim C7 counterexample: `path_to_id` filters out segments that are
empty *before* trimming but keeps whitespace-only segments, which become
empty strings after trimming instead of being discarded as the claim
states. On `"/a/ /b"` the code's segment list is `["a", "", "b"]` while
the claimed normalization yields `["a", "b"]`; observably, on the path
`"/ "` with auto-creation the resolver creates a folder with an empty
name, where the claimed normalization would return `[]` immediately. -/
theorem C7_counterexample :
    normSegs "/a/ /b" = ["a", "", "b"] ∧
    specNormSegs "/a/ /b" = ["a", "b"] ∧
    normSegs "/a/ /b" ≠ specNormSegs "/a/ /b" ∧
    path_to_id listEmpty mkNew "/ " true [] 3 =
      ⟨some [⟨"NEW", "", "folder"⟩], [("/", ⟨"NEW", "", "folder"⟩)],
        [RCall.list none none, RCall.create "" none]⟩ ∧
    specNormSegs "/ " = [] := by
  decide

/-- Claim C7 amended: `path_to_id` splits on `/`, discards every segment
that is empty before trimming, and trims the surviving segments (so a
whitespace-only segment is kept and becomes the empty string); an empty
path or a path yielding no segments returns the empty list immediately,
with no remote call and no error. -/
theorem C7_normalization (path : String) :
    normSegs path = specNormSegsAmended path ∧
    (∀ file_list create_folder create cache fuel,
      normSegs path = [] →
      path_to_id file_list create_folder path create cache fuel =
        ⟨some [], cache, []⟩) := by
  refine ⟨normSegs_eq_amended path, ?_⟩
  intro file_list create_folder create cache fuel hseg
  exact path_to_id_noSegs file_list create_folder path create cache fuel hseg

/-- Claim C7 witness: the amended theorem applied to the path `"///"`. -/
theorem C7_normalization_witness :
    normSegs "///" = specNormSegsAmended "///" ∧
    path_to_id listEmpty mkNew "///" false [] 3 = ⟨some [], [], []⟩ :=
  ⟨(C7_normalization "///").1,
    (C7_normalization "///").2 listEmpty mkNew false [] 3 (by decide)⟩

/-! ### Claim C6 -/

/-- Claim C6: with auto-creation disabled, when the page listed for the
current parent contains no entry matching the next segment and carries no
usable continuation token, `path_to_id` stops early and returns the chain
built so far — strictly shorter than the requested segment count — with
no error; in particular `/NoSuch` against an empty listing with no token
returns `[]`. -/
theorem C6_partial_result
    (file_list : Option String → Option String → ListResp)
    (create_folder : String → Option String → String)
    (segs : List String) (fuel count : Nat) (parent tok : Option String)
    (chain : List PathRec) (cache : Cache) (tr : List RCall)
    (h : count < segs.length) (hlen : chain.length = count)
    (hscan : (scanPage segs count (file_list parent tok).files cache none).2 = none)
    (hguard : (truthy (file_list parent tok).next_page_token &&
      (! truthy tok || decide (tok ≠ (file_list parent tok).next_page_token))) = false) :
    (resolveLoop file_list create_folder false segs (fuel + 1) count parent tok
        chain cache tr =
      ⟨some chain, (scanPage segs count (file_list parent tok).files cache none).1,
        tr ++ [RCall.list parent tok]⟩) ∧
    chain.length < segs.length ∧
    path_to_id listEmpty mkNew "/NoSuch" false [] 1 =
      ⟨some [], [], [RCall.list none none]⟩ := by
  refine ⟨?_, hlen ▸ h, by decide⟩
  simp only [resolveLoop, if_pos h]
  simp [hscan, hguard]
  intro ha hb
  rw [ha] at hguard
  simp at hguard
  rcases hb with hb | hb
  · rw [hguard.1] at hb
    cases hb
  · exact absurd hguard.2 hb

/-- Claim C6 witness: the early-stop behaviour at a concrete state. -/
theorem C6_partial_result_witness :
    resolveLoop listEmpty mkNew false ["NoSuch"] 1 0 none none [] [] [] =
      ⟨some [], [], [RCall.list none none]⟩ :=
  (C6_partial_result listEmpty mkNew ["NoSuch"] 0 0 none none [] [] []
    (by decide) rfl (by decide) (by decide)).1

/-! ### Claim C5 -/

/-- Claim C5: during resolution, a further page is fetched exactly when the
listing response carries a token that is truthy and distinct from the one
just used; when the listing hands back the same token again, pagination is
treated as exhausted and the loop proceeds to folder creation (`create`)
or stops (`not create`) instead of advancing; with a remote that always
returns the same token, resolution terminates after exactly two listing
calls for any fuel of at least two. -/
theorem C5_pagination_guard
    (file_list : Option String → Option String → ListResp)
    (create_folder : String → Option String → String)
    (create : Bool) (segs : List String) (fuel count : Nat)
    (parent tok : Option String) (chain : List PathRec) (cache : Cache)
    (tr : List RCall) (h : count < segs.length)
    (hscan : (scanPage segs count (file_list parent tok).files cache none).2 = none) :
    ((truthy (file_list parent tok).next_page_token &&
        (! truthy tok || decide (tok ≠ (file_list parent tok).next_page_token))) = true →
      resolveLoop file_list create_folder create segs (fuel + 1) count parent tok
          chain cache tr =
        resolveLoop file_list create_folder create segs fuel count parent
          (file_list parent tok).next_page_token chain
          (scanPage segs count (file_list parent tok).files cache none).1
          (tr ++ [RCall.list parent tok])) ∧
    ((file_list parent tok).next_page_token = tok →
      (create = false →
        resolveLoop file_list create_folder create segs (fuel + 1) count parent
            tok chain cache tr =
          ⟨some chain,
            (scanPage segs count (file_list parent tok).files cache none).1,
            tr ++ [RCall.list parent tok]⟩) ∧
      (create = true →
        resolveLoop file_list create_folder create segs (fuel + 1) count parent
            tok chain cache tr =
          resolveLoop file_list create_folder true segs fuel (count + 1)
            (some (create_folder (segs.getD count "") parent)) tok
            (chain ++ [⟨create_folder (segs.getD count "") parent,
              segs.getD count "", "folder"⟩])
            (cacheInsert
              (scanPage segs count (file_list parent tok).files cache none).1
              (mkKey (segs.take (count + 1)))
              ⟨create_folder (segs.getD count "") parent, segs.getD count "",
                "folder"⟩)
            (tr ++ [RCall.list parent tok] ++
              [RCall.create (segs.getD count "") parent]))) ∧
    (∀ f : Nat, path_to_id listRepeat mkNew "/x" false [] (f + 2) =
      ⟨some [], [], [RCall.list none none, RCall.list none (some "T")]⟩) := by
  have hguard : ∀ h9 : (file_list parent tok).next_page_token = tok,
      (truthy (file_list parent tok).next_page_token &&
        (! truthy tok || decide (tok ≠ (file_list parent tok).next_page_token))) = false := by
    intro h9
    rw [h9]
    cases htok : truthy tok <;> simp [htok]
  refine ⟨?_, ?_, ?_⟩
  · intro hg
    exact resolveLoop_step_advance file_list create_folder create segs fuel count
      parent tok chain cache tr h hscan hg
  · intro h9
    constructor
    · intro hc
      subst hc
      exact resolveLoop_step_stop file_list create_folder segs fuel count
        parent tok chain cache tr h hscan (hguard h9)
    · intro hc
      subst hc
      exact resolveLoop_step_create file_list create_folder segs fuel count
        parent tok chain cache tr h hscan (hguard h9)
  · intro f
    rw [path_to_id_nil_cache listRepeat mkNew "/x" false (f + 2) (by decide)]
    have hseg : normSegs "/x" = ["x"] := by decide
    rw [hseg]
    simp only [List.cons_ne_self, if_neg]
    have h1 : resolveLoop listRepeat mkNew false ["x"] (f + 1 + 1) 0 none none [] [] [] =
        resolveLoop listRepeat mkNew false ["x"] (f + 1) 0 none (some "T") [] []
          [RCall.list none none] := by
      have := resolveLoop_step_advance listRepeat mkNew false ["x"] (f + 1) 0
        none none [] [] [] (by decide) (by decide) (by decide)
      simpa using this
    have h2 : resolveLoop listRepeat mkNew false ["x"] (f + 1) 0 none (some "T") [] []
        [RCall.list none none] =
        ⟨some [], [], [RCall.list none none, RCall.list none (some "T")]⟩ := by
      have := resolveLoop_step_stop listRepeat mkNew ["x"] f 0 none (some "T")
        [] [] [RCall.list none none] (by decide) (by decide) (by decide)
      simpa using this
    rw [h1, h2]
    simp

/-- Claim C5 witness: the guard evaluated at a concrete state. -/
theorem C5_pagination_guard_witness :
    resolveLoop listRepeat mkNew false ["x"] 1 0 none (some "T") [] []
        [RCall.list none none] =
      ⟨some [], [], [RCall.list none none, RCall.list none (some "T")]⟩ ∧
    path_to_id listRepeat mkNew "/x" false [] 2 =
      ⟨some [], [], [RCall.list none none, RCall.list none (some "T")]⟩ := by
  have h := C5_pagination_guard listRepeat mkNew false ["x"] 0 0 none (some "T")
    [] [] [RCall.list none none] (by decide) (by decide)
  refine ⟨?_, h.2.2 0⟩
  have h1 := (h.2.1 (by decide)).1 rfl
  simpa using h1

/-! ### Claim C1 -/

theorem chainFirstPage_length
    (file_list : Option String → Option String → ListResp) :
    ∀ (segs : List String) (parent : Option String) (c : List PathRec),
      chainFirstPage file_list parent segs = some c → c.length = segs.length := by
  intro segs
  induction segs with
  | nil =>
    intro parent c hc
    simp [chainFirstPage] at hc
    simp [← hc]
  | cons s rest ih =>
    intro parent c hc
    simp only [chainFirstPage] at hc
    split at hc
    · simp at hc
    · rename_i f hm
      simp at hc
      obtain ⟨cc, hcc, hceq⟩ := hc
      simp [← hceq, ih (some f.id) cc hcc]

/-- When every remaining segment is matched on the first page listed for
its parent, the loop (entered with no page token) resolves them all. -/
theorem resolveLoop_firstPage
    (file_list : Option String → Option String → ListResp)
    (create_folder : String → Option String → String) (create : Bool)
    (segs : List String) :
    ∀ (fuel count : Nat) (parent : Option String) (chain : List PathRec)
      (cache : Cache) (tr : List RCall) (cchain : List PathRec),
      chainFirstPage file_list parent (segs.drop count) = some cchain →
      segs.length - count ≤ fuel →
      (resolveLoop file_list create_folder create segs fuel count parent none
        chain cache tr).result = some (chain ++ cchain) := by
  intro fuel
  induction fuel with
  | zero =>
    intro count parent chain cache tr cchain hc hf
    have hle : segs.length ≤ count := by omega
    have hdrop : segs.drop count = [] := by
      simp [List.drop_eq_nil_iff]
      omega
    rw [hdrop] at hc
    simp [chainFirstPage] at hc
    rw [resolveLoop_done file_list create_folder create segs 0 count parent none
      chain cache tr (by omega)]
    simp [← hc]
  | succ fuel ih =>
    intro count parent chain cache tr cchain hc hf
    by_cases h : count < segs.length
    · rw [List.drop_eq_getElem_cons h] at hc
      simp only [chainFirstPage] at hc
      split at hc
      · simp at hc
      · rename_i f hm
        simp at hc
        obtain ⟨cc, hcc, hceq⟩ := hc
        have hgd : segs.getD count "" = segs[count] := by
          rw [List.getD_eq_getElem?_getD, List.getElem?_eq_getElem h]
          rfl
        have hscan : (scanPage segs count (file_list parent none).files
            cache none).2 = some (recOf f) := by
          rw [scanPage_snd, hgd, hm]
          rfl
        rw [resolveLoop_step_match file_list create_folder create segs fuel
          count parent none chain cache tr h (recOf f) hscan]
        have hrec := ih (count + 1) (some f.id) (chain ++ [recOf f])
          (scanPage segs count (file_list parent none).files cache none).1
          (tr ++ [RCall.list parent none]) cc hcc (by omega)
        have hid : (recOf f).id = f.id := rfl
        rw [hid, hrec]
        simp [← hceq]
    · rw [resolveLoop_done file_list create_folder create segs (fuel + 1) count
        parent none chain cache tr h]
      have hdrop : segs.drop count = [] := by
        simp [List.drop_eq_nil_iff]
        omega
      rw [hdrop] at hc
      simp [chainFirstPage] at hc
      simp [← hc]

/-- Claim C1 counterexample: with an empty cache and `create = False`,
every segment of `/Movies/Action` exists remotely — `Movies` on the second
root page, `Action` on the *first* page of `F1`'s listing — yet the
returned chain has length 1, not 2, because the resolver reuses the stale
continuation token `T` when it starts listing the new parent `F1`. -/
theorem C1_counterexample :
    lastMatch (listBad (some "F1") none).files "Action" none =
      some ⟨"F2", "Action", "drive#folder"⟩ ∧
    lastMatch (listBad none (some "T")).files "Movies" none =
      some ⟨"F1", "Movies", "drive#folder"⟩ ∧
    (path_to_id listBad mkNew "/Movies/Action" false [] 5).result =
      some [⟨"F1", "Movies", "folder"⟩] ∧
    (normSegs "/Movies/Action").length = 2 ∧
    ([(⟨"F1", "Movies", "folder"⟩ : PathRec)].length = 2 → False) := by
  decide

/-- Claim C1 amended: for every absolute path with a non-empty normalized
segment list, starting with an empty cache and `create = False`, if every
segment is matched by an entry on the *first* page the resolver requests
for its parent (`chainFirstPage`), then `path_to_id` returns exactly that
chain, whose length equals the segment count and whose records are those
of the matching entries (the final id being the deepest match's id); in
particular `/Movies/Action` resolves to the two-record chain ending in
`F2`. -/
theorem C1_resolves_full_chain
    (file_list : Option String → Option String → ListResp)
    (create_folder : String → Option String → String)
    (path : String) (chain : List PathRec) (fuel : Nat)
    (hp : path ≠ "")
    (hchain : chainFirstPage file_list none (normSegs path) = some chain)
    (hfuel : (normSegs path).length ≤ fuel) :
    (path_to_id file_list create_folder path false [] fuel).result = some chain ∧
    chain.length = (normSegs path).length ∧
    path_to_id listMov mkNew "/Movies/Action" false [] 2 =
      ⟨some [⟨"F1", "Movies", "folder"⟩, ⟨"F2", "Action", "folder"⟩],
        [("/Movies/Action", ⟨"F2", "Action", "folder"⟩),
          ("/Movies", ⟨"F1", "Movies", "folder"⟩)],
        [RCall.list none none, RCall.list (some "F1") none]⟩ := by
  refine ⟨?_, chainFirstPage_length file_list (normSegs path) none chain hchain,
    by decide⟩
  by_cases hs : normSegs path = []
  · rw [hs] at hchain
    simp only [chainFirstPage, Option.some.injEq] at hchain
    rw [path_to_id_noSegs file_list create_folder path false [] fuel hs,
      ← hchain]
  · rw [path_to_id_nil_cache file_list create_folder path false fuel hp,
      if_neg hs]
    have := resolveLoop_firstPage file_list create_folder false (normSegs path)
      fuel 0 none [] [] [] chain (by simpa using hchain) (by omega)
    simpa using this

/-- Claim C1 witness: the amended theorem applied to the `/Movies/Action`
scenario remote. -/
theorem C1_resolves_full_chain_witness :
    (path_to_id listMov mkNew "/Movies/Action" false [] 2).result =
      some [⟨"F1", "Movies", "folder"⟩, ⟨"F2", "Action", "folder"⟩] ∧
    ([(⟨"F1", "Movies", "folder"⟩ : PathRec), ⟨"F2", "Action", "folder"⟩] :
      List PathRec).length = (normSegs "/Movies/Action").length :=
  ⟨(C1_resolves_full_chain listMov mkNew "/Movies/Action"
      [⟨"F1", "Movies", "folder"⟩, ⟨"F2", "Action", "folder"⟩] 2
      (by decide) (by decide) (by decide)).1,
    (C1_resolves_full_chain listMov mkNew "/Movies/Action"
      [⟨"F1", "Movies", "folder"⟩, ⟨"F2", "Action", "folder"⟩] 2
      (by decide) (by decide) (by decide)).2.1⟩

/-! ### Claim C9 -/

/-- Claim C9 (code bug): on a match the resolver does record the
`{id, name, file_type}` tuple, cache it under its full prefix path and
advance with the matched id as the new parent — but it does **not** reset
pagination state. Resolving `/Movies/Action` where `Movies` appears on
the second root page (reached via token `T`), the first listing issued
for the new parent `F1` carries the stale token `T` instead of starting
from the first page, so `Action` (present on `F1`'s first page) is never
seen. -/
theorem C9_stale_page_token :
    (path_to_id listBad mkNew "/Movies/Action" false [] 5).trace =
      [RCall.list none none, RCall.list none (some "T"),
        RCall.list (some "F1") (some "T")] ∧
    (path_to_id listBad mkNew "/Movies/Action" false [] 5).cache =
      [("/Movies", ⟨"F1", "Movies", "folder"⟩)] ∧
    (path_to_id listBad mkNew "/Movies/Action" false [] 5).result =
      some [⟨"F1", "Movies", "folder"⟩] := by
  decide

/-! ### The resilient request pipeline

`_make_request` retries a request up to `max_retries` times, sleeping
`initial_backoff * 2 ** attempt` after each failed attempt.
`_handle_response` classifies the JSON envelope; on `error_code == 16` it
refreshes the access token (a nested `_make_request` against the token
endpoint) and signals a retry.  The HTTP transport is an oracle from the
global request index (the number of requests sent so far) to a response
shape. -/

/-- The fields of a successful JSON envelope the pipeline reads
(`access_token`, `refresh_token`, `sub` for the token endpoint). -/
structure Payload where
  access_token : Option String := none
  refresh_token : Option String := none
  sub : Option String := none
deriving Repr, DecidableEq

/-- Shape of one transport outcome: an `httpx.HTTPError` raised at send
time, a body that fails JSON parsing, a parsed-but-falsy body, a JSON
object without an `error` field, or a JSON error envelope. -/
inductive Response where
  | httpError (msg : String)
  | badJson (status : Nat)
  | emptyJson (status : Nat)
  | ok (p : Payload)
  | errResp (error : String) (error_code : Option Int)
      (error_description : Option String)
deriving Repr, DecidableEq

/-- Outcome of `_handle_response` (with exceptions reified):
return value, `PikpakException` for invalid credentials, the
`error_code == 16` refresh-and-retry signal, a terminal domain error, the
`PikpakRetryException("Empty JSON data")`, or a network-level error from
the send itself. -/
inductive Classify where
  | success (p : Payload)
  | invalidCreds
  | needsRefresh
  | fatalOther (msg : String)
  | transientEmpty
  | netErr (msg : String)
deriving Repr, DecidableEq

/-- `_handle_response` as a classification of the response shape,
mirroring the order of checks in the source. -/
def classify : Response → Classify
  | .httpError m => .netErr m
  | .badJson status => if status = 200 then .success {} else .transientEmpty
  | .emptyJson status => if status = 200 then .success {} else .transientEmpty
  | .ok p => .success p
  | .errResp e c d =>
    if e = "invalid_account_or_password" then .invalidCreds
    else if c = some 16 then .needsRefresh
    else .fatalOther (d.getD "Unknown Error")

/-- Target of a request: the token-refresh endpoint or any other URL. -/
inductive Endpoint where
  | refreshTok
  | api (name : String)
deriving Repr, DecidableEq

/-- A request as sent on the wire: its endpoint and the bearer token
attached to it (none when no `Authorization` header is present). -/
structure SentReq where
  endpoint : Endpoint
  token : Option String
deriving Repr, DecidableEq

/-- The mutable client state the pipeline touches: the session
credentials, plus the observable trace of sent requests and of the
back-off delays slept. -/
structure PipeState where
  access_token : Option String
  refresh_token : Option String
  user_id : Option String
  trace : List SentReq
  sleeps : List ℚ
deriving Repr, DecidableEq

/-- `request_max_retries` and `request_initial_backoff`. -/
structure Config where
  max_retries : Nat
  initial_backoff : ℚ
deriving Repr, DecidableEq

/-- Outcome of `_make_request`: a payload, a raised `PikpakException`
with its message, or fuel exhaustion (the Python recursion would still be
running). -/
inductive ReqOut where
  | ok (p : Payload)
  | err (msg : String)
  | outOfFuel
deriving Repr, DecidableEq

/-- Outcome of `refresh_access_token`: success (tokens updated), a raised
`PikpakException`, a raised `KeyError` (token field missing from the
response), or fuel exhaustion. -/
inductive RefreshOut where
  | rok
  | rfatal (msg : String)
  | rkeyError (msg : String)
  | rfuel
deriving Repr, DecidableEq

/-- `await asyncio.sleep(self.initial_backoff * (2 ** attempt))`. -/
def pushSleep (cfg : Config) (attempt : Nat) (st : PipeState) : PipeState :=
  { st with sleeps := st.sleeps ++ [cfg.initial_backoff * 2 ^ attempt] }


/-- The `for attempt in range(self.max_retries)` loop of `_make_request`,
parameterized by the token-refresh routine `refresh` (which carries its
own fuel).  `rem` counts the remaining attempts, `attempt` the current
index, `lastErr` is `str(last_error)`; `hdr = some t` models an explicit
`headers` argument carrying bearer token `t`, `hdr = none` means
`self.get_headers()` attaches the current access token. -/
def makeLoopF (env : Nat → Response) (cfg : Config) (ep : Endpoint)
    (hdr : Option (Option String))
    (refresh : PipeState → RefreshOut × PipeState) :
    Nat → Nat → String → PipeState → ReqOut × PipeState
  | 0, _, lastErr, st =>
    (.err ("Max retries reached. Last error: " ++ lastErr), st)
  | rem + 1, attempt, lastErr, st =>
    let tok := hdr.getD st.access_token
    let st' : PipeState := { st with trace := st.trace ++ [⟨ep, tok⟩] }
    match classify (env st.trace.length) with
    | .success p => (.ok p, st')
    | .invalidCreds => (.err "Invalid username or password", st')
    | .fatalOther m => (.err m, st')
    | .transientEmpty =>
      makeLoopF env cfg ep hdr refresh rem (attempt + 1) "Empty JSON data"
        (pushSleep cfg attempt st')
    | .netErr m =>
      makeLoopF env cfg ep hdr refresh rem (attempt + 1) m
        (pushSleep cfg attempt st')
    | .needsRefresh =>
      match refresh st' with
      | (.rok, st2) =>
        makeLoopF env cfg ep hdr refresh rem (attempt + 1)
          "Token refreshed, please retry" (pushSleep cfg attempt st2)
      | (.rfatal m, st2) => (.err m, st2)
      | (.rkeyError m, st2) =>
        makeLoopF env cfg ep hdr refresh rem (attempt + 1) m
          (pushSleep cfg attempt st2)
      | (.rfuel, st2) => (.outOfFuel, st2)

/-- `refresh_access_token`: a POST to the token endpoint through
`_make_request`, then `self.access_token = user_info["access_token"]`
etc.; a missing field raises `KeyError`, which the outer retry loop
catches as a generic transient error.  Each nesting level of the
refresh-inside-refresh recursion consumes one unit of fuel. -/
def refresh_access_token (env : Nat → Response) (cfg : Config) :
    Nat → PipeState → RefreshOut × PipeState
  | 0, st => (.rfuel, st)
  | fuel + 1, st =>
    match makeLoopF env cfg .refreshTok none (refresh_access_token env cfg fuel)
        cfg.max_retries 0 "None" st with
    | (.ok p, st2) =>
      match p.access_token, p.refresh_token, p.sub with
      | some a, some r, some u =>
        (.rok, { st2 with access_token := some a, refresh_token := some r, user_id := some u })
      | _, _, _ => (.rkeyError "KeyError", st2)
    | (.err m, st2) => (.rfatal m, st2)
    | (.outOfFuel, st2) => (.rfuel, st2)

/-- The retry loop with the refresh routine at the given fuel plugged
in. -/
def makeLoop (env : Nat → Response) (cfg : Config) (ep : Endpoint)
    (hdr : Option (Option String)) (fuel rem attempt : Nat) (lastErr : String)
    (st : PipeState) : ReqOut × PipeState :=
  makeLoopF env cfg ep hdr (refresh_access_token env cfg fuel) rem attempt
    lastErr st

/-- `_make_request(method, url, ...)`: run the retry loop with a fresh
attempt counter and `last_error = None`. -/
def make_request (env : Nat → Response) (cfg : Config) (ep : Endpoint)
    (hdr : Option (Option String)) (fuel : Nat) (st : PipeState) :
    ReqOut × PipeState :=
  makeLoop env cfg ep hdr fuel cfg.max_retries 0 "None" st

/-! ### Pipeline lemmas -/

theorem makeLoopF_trace_mono (env : Nat → Response) (cfg : Config)
    (ep : Endpoint) (hdr : Option (Option String))
    (refresh : PipeState → RefreshOut × PipeState)
    (href : ∀ st : PipeState, ∃ t, (refresh st).2.trace = st.trace ++ t) :
    ∀ (rem attempt : Nat) (lastErr : String) (st : PipeState),
      ∃ t, (makeLoopF env cfg ep hdr refresh rem attempt lastErr st).2.trace =
        st.trace ++ t := by
  intro rem
  induction rem with
  | zero =>
    intro attempt lastErr st
    exact ⟨[], by simp [makeLoopF]⟩
  | succ rem ihrem =>
    intro attempt lastErr st
    unfold makeLoopF
    split
    · exact ⟨[⟨ep, hdr.getD st.access_token⟩], by simp⟩
    · exact ⟨[⟨ep, hdr.getD st.access_token⟩], by simp⟩
    · exact ⟨[⟨ep, hdr.getD st.access_token⟩], by simp⟩
    · obtain ⟨t, ht⟩ := ihrem (attempt + 1) "Empty JSON data"
        (pushSleep cfg attempt
          { st with trace := st.trace ++ [⟨ep, hdr.getD st.access_token⟩] })
      exact ⟨[⟨ep, hdr.getD st.access_token⟩] ++ t, by
        simpa [pushSleep, List.append_assoc] using ht⟩
    · rename_i m hm
      obtain ⟨t, ht⟩ := ihrem (attempt + 1) m
        (pushSleep cfg attempt
          { st with trace := st.trace ++ [⟨ep, hdr.getD st.access_token⟩] })
      exact ⟨[⟨ep, hdr.getD st.access_token⟩] ++ t, by
        simpa [pushSleep, List.append_assoc] using ht⟩
    · rename_i hcl
      obtain ⟨t1, ht1⟩ := href
        { st with trace := st.trace ++ [⟨ep, hdr.getD st.access_token⟩] }
      dsimp only
      split
      · rename_i st2 hres
        rw [hres] at ht1
        simp at ht1
        obtain ⟨t2, ht2⟩ := ihrem (attempt + 1) "Token refreshed, please retry"
          (pushSleep cfg attempt st2)
        refine ⟨[⟨ep, hdr.getD st.access_token⟩] ++ t1 ++ t2, ?_⟩
        simp only [pushSleep] at ht2 ⊢
        rw [ht2, ht1]
        simp [List.append_assoc]
      · rename_i m st2 hres
        rw [hres] at ht1
        simp at ht1
        exact ⟨[⟨ep, hdr.getD st.access_token⟩] ++ t1, by
          simpa [List.append_assoc] using ht1⟩
      · rename_i m st2 hres
        rw [hres] at ht1
        simp at ht1
        obtain ⟨t2, ht2⟩ := ihrem (attempt + 1) m (pushSleep cfg attempt st2)
        refine ⟨[⟨ep, hdr.getD st.access_token⟩] ++ t1 ++ t2, ?_⟩
        simp only [pushSleep] at ht2 ⊢
        rw [ht2, ht1]
        simp [List.append_assoc]
      · rename_i st2 hres
        rw [hres] at ht1
        simp at ht1
        exact ⟨[⟨ep, hdr.getD st.access_token⟩] ++ t1, by
          simpa [List.append_assoc] using ht1⟩

theorem refresh_trace_mono (env : Nat → Response) (cfg : Config) :
    ∀ (fuel : Nat) (st : PipeState), ∃ t,
      (refresh_access_token env cfg fuel st).2.trace = st.trace ++ t := by
  intro fuel
  induction fuel with
  | zero =>
    intro st
    exact ⟨[], by simp [refresh_access_token]⟩
  | succ f ih =>
    intro st
    obtain ⟨t, ht⟩ := makeLoopF_trace_mono env cfg .refreshTok none
      (refresh_access_token env cfg f) ih cfg.max_retries 0 "None" st
    unfold refresh_access_token
    split
    · rename_i p st2 hres
      rw [hres] at ht
      split
      · exact ⟨t, by simpa using ht⟩
      · exact ⟨t, by simpa using ht⟩
    · rename_i m st2 hres
      rw [hres] at ht
      exact ⟨t, by simpa using ht⟩
    · rename_i st2 hres
      rw [hres] at ht
      exact ⟨t, by simpa using ht⟩

theorem makeLoop_trace_mono (env : Nat → Response) (cfg : Config)
    (ep : Endpoint) (hdr : Option (Option String)) (fuel rem attempt : Nat)
    (lastErr : String) (st : PipeState) :
    ∃ t, (makeLoop env cfg ep hdr fuel rem attempt lastErr st).2.trace =
      st.trace ++ t :=
  makeLoopF_trace_mono env cfg ep hdr (refresh_access_token env cfg fuel)
    (refresh_trace_mono env cfg fuel) rem attempt lastErr st

/-- A loop entered with at least one attempt left records its own request
as the next trace entry, whatever happens afterwards. -/
theorem makeLoopF_trace_prefix (env : Nat → Response) (cfg : Config)
    (ep : Endpoint) (hdr : Option (Option String))
    (refresh : PipeState → RefreshOut × PipeState)
    (href : ∀ st : PipeState, ∃ t, (refresh st).2.trace = st.trace ++ t)
    (rem attempt : Nat) (lastErr : String) (st : PipeState) :
    ∃ rest, (makeLoopF env cfg ep hdr refresh (rem + 1) attempt lastErr st).2.trace =
      st.trace ++ [⟨ep, hdr.getD st.access_token⟩] ++ rest := by
  unfold makeLoopF
  split
  · exact ⟨[], by simp⟩
  · exact ⟨[], by simp⟩
  · exact ⟨[], by simp⟩
  · obtain ⟨t, ht⟩ := makeLoopF_trace_mono env cfg ep hdr refresh href rem
      (attempt + 1) "Empty JSON data" (pushSleep cfg attempt
        { st with trace := st.trace ++ [⟨ep, hdr.getD st.access_token⟩] })
    exact ⟨t, by simpa [pushSleep, List.append_assoc] using ht⟩
  · rename_i m hm
    obtain ⟨t, ht⟩ := makeLoopF_trace_mono env cfg ep hdr refresh href rem
      (attempt + 1) m (pushSleep cfg attempt
        { st with trace := st.trace ++ [⟨ep, hdr.getD st.access_token⟩] })
    exact ⟨t, by simpa [pushSleep, List.append_assoc] using ht⟩
  · rename_i hcl
    obtain ⟨t1, ht1⟩ := href
      { st with trace := st.trace ++ [⟨ep, hdr.getD st.access_token⟩] }
    dsimp only
    split
    · rename_i st2 hres
      rw [hres] at ht1
      simp at ht1
      obtain ⟨t2, ht2⟩ := makeLoopF_trace_mono env cfg ep hdr refresh href rem
        (attempt + 1) "Token refreshed, please retry" (pushSleep cfg attempt st2)
      refine ⟨t1 ++ t2, ?_⟩
      simp only [pushSleep] at ht2 ⊢
      rw [ht2, ht1]
      simp [List.append_assoc]
    · rename_i m st2 hres
      rw [hres] at ht1
      simp at ht1
      exact ⟨t1, by simpa [List.append_assoc] using ht1⟩
    · rename_i m st2 hres
      rw [hres] at ht1
      simp at ht1
      obtain ⟨t2, ht2⟩ := makeLoopF_trace_mono env cfg ep hdr refresh href rem
        (attempt + 1) m (pushSleep cfg attempt st2)
      refine ⟨t1 ++ t2, ?_⟩
      simp only [pushSleep] at ht2 ⊢
      rw [ht2, ht1]
      simp [List.append_assoc]
    · rename_i st2 hres
      rw [hres] at ht1
      simp at ht1
      exact ⟨t1, by simpa [List.append_assoc] using ht1⟩

/-- A remote that answers every request with the auth-expiry envelope
(`error_code` 16). -/
def env16 : Nat → Response := fun _ => .errResp "unauthenticated" (some 16) none

/-- One auth-expiry response, then a successful token exchange, then
plain successes. -/
def envRefresh : Nat → Response
  | 0 => .errResp "unauthenticated" (some 16) none
  | 1 => .ok ⟨some "A1", some "R1", some "U"⟩
  | _ => .ok ⟨none, none, none⟩

/-- A remote whose responses are HTTP 200 with unparseable bodies. -/
def env200 : Nat → Response := fun _ => .badJson 200

/-- A non-200 empty-body response, then a success. -/
def envEmptyThenOk : Nat → Response
  | 0 => .emptyJson 500
  | _ => .ok ⟨none, none, none⟩

/-- Default retry configuration: 3 attempts, 3 second initial backoff. -/
def cfgW : Config := ⟨3, 3⟩

/-- A client state holding tokens `A0`/`R0` with nothing sent yet. -/
def stW : PipeState := ⟨some "A0", some "R0", none, [], []⟩

/-! ### Claim C2 -/

/-- Claim C2: when a response carries `error_code` 16 (and is not the
invalid-credentials error), the pipeline performs exactly one
refresh-token exchange — the only request between the failed attempt and
the retry is a single POST to the token endpoint — mutates the session
credentials in place to the refreshed tokens, and then retries the
original request carrying the access token produced by that refresh. -/
theorem C2_refresh_once_then_retry
    (env : Nat → Response) (cfg : Config) (ep : Endpoint)
    (f r attempt : Nat) (lastErr : String) (st : PipeState)
    (e : String) (d : Option String) (p : Payload) (a r2 u : String)
    (hmax : 1 ≤ cfg.max_retries)
    (hresp : env st.trace.length = .errResp e (some 16) d)
    (hinv : e ≠ "invalid_account_or_password")
    (hrefresh : env (st.trace.length + 1) = .ok p)
    (hpa : p.access_token = some a) (hpr : p.refresh_token = some r2)
    (hpu : p.sub = some u) :
    (makeLoop env cfg ep none (f + 1) (r + 2) attempt lastErr st =
      makeLoop env cfg ep none (f + 1) (r + 1) (attempt + 1)
        "Token refreshed, please retry"
        ⟨some a, some r2, some u,
          st.trace ++ [⟨ep, st.access_token⟩, ⟨.refreshTok, st.access_token⟩],
          st.sleeps ++ [cfg.initial_backoff * 2 ^ attempt]⟩) ∧
    (∃ rest, (makeLoop env cfg ep none (f + 1) (r + 2) attempt lastErr st).2.trace =
      st.trace ++ [⟨ep, st.access_token⟩, ⟨Endpoint.refreshTok, st.access_token⟩,
        ⟨ep, some a⟩] ++ rest) := by
  obtain ⟨m, hm⟩ : ∃ m, cfg.max_retries = m + 1 :=
    ⟨cfg.max_retries - 1, by omega⟩
  have hcl : classify (env st.trace.length) = .needsRefresh := by
    rw [hresp]
    simp [classify, hinv]
  have hrefl :
      refresh_access_token env cfg (f + 1)
        { st with trace := st.trace ++ [⟨ep, st.access_token⟩] } =
      (.rok, ⟨some a, some r2, some u,
        st.trace ++ [⟨ep, st.access_token⟩, ⟨.refreshTok, st.access_token⟩],
        st.sleeps⟩) := by
    rw [refresh_access_token, hm]
    conv =>
      lhs
      rw [makeLoopF]
    have hidx : (({ st with trace := st.trace ++ [⟨ep, st.access_token⟩] } :
        PipeState).trace).length = st.trace.length + 1 := by simp
    rw [hidx, hrefresh]
    dsimp only [classify]
    rw [hpa, hpr, hpu]
    simp [List.append_assoc]
  have hstep1 :
      makeLoop env cfg ep none (f + 1) (r + 2) attempt lastErr st =
        makeLoop env cfg ep none (f + 1) (r + 1) (attempt + 1)
          "Token refreshed, please retry"
          ⟨some a, some r2, some u,
            st.trace ++ [⟨ep, st.access_token⟩, ⟨.refreshTok, st.access_token⟩],
            st.sleeps ++ [cfg.initial_backoff * 2 ^ attempt]⟩ := by
    simp only [makeLoop]
    conv =>
      lhs
      rw [makeLoopF]
    rw [hcl]
    dsimp only
    simp only [Option.getD_none]
    rw [hrefl]
    rfl
  refine ⟨hstep1, ?_⟩
  rw [hstep1]
  simp only [makeLoop]
  obtain ⟨rest, hrest⟩ := makeLoopF_trace_prefix env cfg ep none
    (refresh_access_token env cfg (f + 1))
    (refresh_trace_mono env cfg (f + 1)) r (attempt + 1)
    "Token refreshed, please retry"
    ⟨some a, some r2, some u,
      st.trace ++ [⟨ep, st.access_token⟩, ⟨.refreshTok, st.access_token⟩],
      st.sleeps ++ [cfg.initial_backoff * 2 ^ attempt]⟩
  refine ⟨rest, ?_⟩
  simpa [List.append_assoc] using hrest

/-- Claim C2 witness: the refresh-and-retry behaviour at the concrete
scenario remote `envRefresh`. -/
theorem C2_refresh_once_then_retry_witness :
    (makeLoop envRefresh cfgW (.api "files") none (2 + 1) (1 + 2) 0 "None" stW =
      makeLoop envRefresh cfgW (.api "files") none (2 + 1) (1 + 1) (0 + 1)
        "Token refreshed, please retry"
        ⟨some "A1", some "R1", some "U",
          stW.trace ++ [⟨.api "files", stW.access_token⟩,
            ⟨.refreshTok, stW.access_token⟩],
          stW.sleeps ++ [cfgW.initial_backoff * 2 ^ 0]⟩) ∧
    (∃ rest, (makeLoop envRefresh cfgW (.api "files") none (2 + 1) (1 + 2) 0
        "None" stW).2.trace =
      stW.trace ++ [⟨.api "files", stW.access_token⟩,
        ⟨Endpoint.refreshTok, stW.access_token⟩,
        ⟨.api "files", some "A1"⟩] ++ rest) :=
  C2_refresh_once_then_retry envRefresh cfgW (.api "files") 2 1 0 "None" stW
    "unauthenticated" none ⟨some "A1", some "R1", some "U"⟩ "A1" "R1" "U"
    (by decide) rfl (by decide) rfl rfl rfl rfl

/-! ### Claim C4 -/

theorem makeLoopF_env16_outOfFuel (cfg : Config) (ep : Endpoint)
    (hdr : Option (Option String)) (refresh : PipeState → RefreshOut × PipeState)
    (href : ∀ st : PipeState, (refresh st).1 = .rfuel) :
    ∀ (rem attempt : Nat) (lastErr : String) (st : PipeState), 1 ≤ rem →
      (makeLoopF env16 cfg ep hdr refresh rem attempt lastErr st).1 = .outOfFuel := by
  intro rem attempt lastErr st hrem
  obtain ⟨k, hk⟩ : ∃ k, rem = k + 1 := ⟨rem - 1, by omega⟩
  subst hk
  have hcl : classify (env16 st.trace.length) = .needsRefresh := by
    simp [env16, classify]
  rw [makeLoopF, hcl]
  dsimp only
  cases hres : refresh { st with trace :=
      st.trace ++ [⟨ep, hdr.getD st.access_token⟩] } with
  | mk out st2 =>
    have := href { st with trace :=
      st.trace ++ [⟨ep, hdr.getD st.access_token⟩] }
    rw [hres] at this
    simp at this
    rw [this]

theorem refresh_env16_rfuel (cfg : Config) (hmax : 1 ≤ cfg.max_retries) :
    ∀ (fuel : Nat) (st : PipeState),
      (refresh_access_token env16 cfg fuel st).1 = .rfuel := by
  intro fuel
  induction fuel with
  | zero => intro st; rfl
  | succ f ih =>
    intro st
    have hloop := makeLoopF_env16_outOfFuel cfg .refreshTok none
      (refresh_access_token env16 cfg f) ih cfg.max_retries 0 "None" st hmax
    rw [refresh_access_token]
    cases hres : makeLoopF env16 cfg .refreshTok none
        (refresh_access_token env16 cfg f) cfg.max_retries 0 "None" st with
    | mk out st2 =>
      rw [hres] at hloop
      simp at hloop
      rw [hloop]

/-- Claim C4 (code bug): the pipeline is *not* protected against repeated
auth-expiry signals: when every response — including the refresh
exchange's own — carries `error_code` 16, `_handle_response` calls
`refresh_access_token`, whose nested `_make_request` calls
`_handle_response` again, recursing without bound before any retry
counter is consulted. In the fuel model, no finite fuel suffices: the
run is fuel-exhaustion for every fuel. -/
theorem C4_unbounded_refresh_recursion
    (fuel : Nat) (cfg : Config) (ep : Endpoint) (hdr : Option (Option String))
    (st : PipeState) (hmax : 1 ≤ cfg.max_retries) :
    (make_request env16 cfg ep hdr fuel st).1 = .outOfFuel :=
  makeLoopF_env16_outOfFuel cfg ep hdr (refresh_access_token env16 cfg fuel)
    (fun st2 => refresh_env16_rfuel cfg hmax fuel st2) cfg.max_retries 0 "None"
    st hmax

/-- Claim C4 witness: fuel 5, default configuration. -/
theorem C4_unbounded_refresh_recursion_witness :
    (make_request env16 cfgW (.api "files") none 5 stW).1 = .outOfFuel :=
  C4_unbounded_refresh_recursion 5 cfgW (.api "files") none stW (by decide)

/-! ### Claim C8 -/

/-- Claim C8 counterexample: a response with HTTP status 200 whose body is
not parseable as JSON is *not* classified as transient — `_handle_response`
returns the empty dict as a success, so the very first attempt succeeds
with payload `{}` and no retry or backoff happens. -/
theorem C8_counterexample :
    classify (.badJson 200) = .success ⟨none, none, none⟩ ∧
    make_request env200 cfgW (.api "files") none 5 stW =
      (.ok ⟨none, none, none⟩,
        ⟨some "A0", some "R0", none, [⟨.api "files", some "A0"⟩], []⟩) := by
  exact ⟨rfl, rfl⟩

/-- Claim C8 amended: an empty or unparseable body is classified as
transient only when the HTTP status is not 200 (a 200 body yields an
empty-payload success); such a non-200 failure joins the backoff/retry
loop and is recovered on the next attempt within the budget. -/
theorem C8_empty_body_transient (s : Nat) (hs : s ≠ 200)
    (env : Nat → Response) (cfg : Config) (ep : Endpoint) (fuel r attempt : Nat)
    (lastErr : String) (st : PipeState) (p : Payload)
    (hresp : env st.trace.length = .emptyJson s ∨ env st.trace.length = .badJson s)
    (hnext : env (st.trace.length + 1) = .ok p) :
    classify (.emptyJson s) = .transientEmpty ∧
    classify (.badJson s) = .transientEmpty ∧
    makeLoop env cfg ep none fuel (r + 2) attempt lastErr st =
      (.ok p,
        ⟨st.access_token, st.refresh_token, st.user_id,
          st.trace ++ [⟨ep, st.access_token⟩, ⟨ep, st.access_token⟩],
          st.sleeps ++ [cfg.initial_backoff * 2 ^ attempt]⟩) := by
  have hce : classify (.emptyJson s) = .transientEmpty := by simp [classify, hs]
  have hcb : classify (.badJson s) = .transientEmpty := by simp [classify, hs]
  refine ⟨hce, hcb, ?_⟩
  have hcl : classify (env st.trace.length) = .transientEmpty := by
    rcases hresp with h | h <;> rw [h] <;> simp [classify, hs]
  simp only [makeLoop]
  conv =>
    lhs
    rw [makeLoopF]
  rw [hcl]
  dsimp only
  simp only [Option.getD_none]
  conv =>
    lhs
    rw [makeLoopF]
  have hidx : ((pushSleep cfg attempt
      { st with trace := st.trace ++ [⟨ep, st.access_token⟩] }).trace).length =
      st.trace.length + 1 := by
    simp [pushSleep]
  rw [hidx, hnext]
  dsimp only [classify, pushSleep]
  simp [List.append_assoc]

/-- Claim C8 witness: a 500 empty body followed by a success. -/
theorem C8_empty_body_transient_witness :
    classify (.emptyJson 500) = .transientEmpty ∧
    classify (.badJson 500) = .transientEmpty ∧
    makeLoop envEmptyThenOk cfgW (.api "files") none 5 (1 + 2) 0 "None" stW =
      (.ok ⟨none, none, none⟩,
        ⟨stW.access_token, stW.refresh_token, stW.user_id,
          stW.trace ++ [⟨.api "files", stW.access_token⟩,
            ⟨.api "files", stW.access_token⟩],
          stW.sleeps ++ [cfgW.initial_backoff * 2 ^ 0]⟩) :=
  C8_empty_body_transient 500 (by decide) envEmptyThenOk cfgW (.api "files")
    5 1 0 "None" stW ⟨none, none, none⟩ (Or.inl rfl) rfl

/-! ### Claim C3 -/

/-- Is this response the auth-expiry signal (`error_code` 16)? -/
def isRefreshSignal (r : Response) : Bool :=
  match classify r with
  | .needsRefresh => true
  | _ => false

/-- A successful token-exchange response: a payload carrying all of
`access_token`, `refresh_token` and `sub`. -/
def refreshOkResp : Response → Bool
  | .ok p => p.access_token.isSome && p.refresh_token.isSome && p.sub.isSome
  | _ => false

/-- A network-level or empty-body transient failure shape. -/
def netTransient (r : Response) : Bool :=
  match classify r with
  | .transientEmpty => true
  | .netErr _ => true
  | _ => false

/-- `str(last_error)` recorded after a transiently failed attempt on this
response. -/
def transientMsg (r : Response) : String :=
  match classify r with
  | .netErr m => m
  | .needsRefresh => "Token refreshed, please retry"
  | _ => "Empty JSON data"

/-- Global index of the request sent by the i-th top-level attempt when
every attempt fails transiently: an auth-expiry attempt consumes two
indices (its own send plus the refresh exchange), any other one. -/
def attemptIdx (env : Nat → Response) (n : Nat) : Nat → Nat
  | 0 => n
  | i + 1 =>
    attemptIdx env n i +
      (if isRefreshSignal (env (attemptIdx env n i)) then 2 else 1)

/-- The attempt whose request has global index `i` fails transiently:
either a network-level/empty-body failure, or the auth-expiry signal with
a successful refresh exchange right after it. -/
def TransAt (env : Nat → Response) (i : Nat) : Prop :=
  netTransient (env i) = true ∨
    (isRefreshSignal (env i) = true ∧ refreshOkResp (env (i + 1)) = true)

/-- The last failure reason after `rem` further transient attempts
starting from global index `n`. -/
def lastMsg (env : Nat → Response) (n : Nat) (rem : Nat) (lastErr : String) :
    String :=
  match rem with
  | 0 => lastErr
  | k + 1 => transientMsg (env (attemptIdx env n k))

theorem attemptIdx_le (env : Nat → Response) (n : Nat) :
    ∀ i, n ≤ attemptIdx env n i := by
  intro i
  induction i with
  | zero => exact Nat.le_refl n
  | succ i ih =>
    simp only [attemptIdx]
    split <;> omega

theorem attemptIdx_succ_outer (env : Nat → Response) (n : Nat) :
    ∀ i, attemptIdx env n (i + 1) = attemptIdx env (attemptIdx env n 1) i := by
  intro i
  induction i with
  | zero => simp [attemptIdx]
  | succ i ih =>
    conv =>
      lhs
      rw [attemptIdx]
    rw [ih]
    rfl

theorem lastMsg_shift (env : Nat → Response) (n k : Nat) (lastErr : String) :
    lastMsg env n (k + 1) lastErr =
      lastMsg env (attemptIdx env n 1) k (transientMsg (env n)) := by
  cases k with
  | zero => rfl
  | succ j =>
    simp only [lastMsg]
    rw [attemptIdx_succ_outer]

theorem range_map_pow_shift (b : ℚ) (attempt k : Nat) :
    (List.range (k + 1)).map (fun i => b * 2 ^ (attempt + i)) =
      (b * 2 ^ attempt) ::
        (List.range k).map (fun i => b * 2 ^ (attempt + 1 + i)) := by
  rw [List.range_succ_eq_map]
  simp only [List.map_cons, List.map_map]
  refine congrArg₂ _ (by ring_nf) ?_
  refine List.map_congr_left ?_
  intro i _
  have h : attempt + (i + 1) = attempt + 1 + i := by omega
  simp [Function.comp, h]

/-- A refresh exchange whose first request is answered by a well-formed
token payload succeeds immediately, appending exactly one request to the
trace, no sleeps, and updating the credentials in place. -/
theorem refresh_ok_step (env : Nat → Response) (cfg : Config) (f : Nat)
    (st : PipeState) (p : Payload) (a r2 u : String)
    (hmax : 1 ≤ cfg.max_retries)
    (hresp : env st.trace.length = .ok p)
    (hpa : p.access_token = some a) (hpr : p.refresh_token = some r2)
    (hpu : p.sub = some u) :
    refresh_access_token env cfg (f + 1) st =
      (.rok, ⟨some a, some r2, some u,
        st.trace ++ [⟨.refreshTok, st.access_token⟩], st.sleeps⟩) := by
  obtain ⟨m, hm⟩ : ∃ m, cfg.max_retries = m + 1 :=
    ⟨cfg.max_retries - 1, by omega⟩
  rw [refresh_access_token, hm]
  conv =>
    lhs
    rw [makeLoopF]
  rw [hresp]
  dsimp only [classify]
  rw [hpa, hpr, hpu]
  rfl

/-- The retry budget: starting with `rem` attempts left, if every further
attempt fails transiently, the loop performs exactly `rem` more attempts
with geometrically growing sleeps and then raises the terminal error
carrying the last failure reason. -/
theorem makeLoop_budget (env : Nat → Response) (cfg : Config) (ep : Endpoint)
    (f : Nat) (hmax : 1 ≤ cfg.max_retries) (hep : ep ≠ Endpoint.refreshTok) :
    ∀ (rem attempt : Nat) (lastErr : String) (st : PipeState),
      (∀ i < rem, TransAt env (attemptIdx env st.trace.length i)) →
      (makeLoop env cfg ep none (f + 1) rem attempt lastErr st).1 =
          .err ("Max retries reached. Last error: " ++
            lastMsg env st.trace.length rem lastErr) ∧
      (makeLoop env cfg ep none (f + 1) rem attempt lastErr st).2.sleeps =
        st.sleeps ++ (List.range rem).map
          (fun i => cfg.initial_backoff * 2 ^ (attempt + i)) ∧
      ∃ tNew,
        (makeLoop env cfg ep none (f + 1) rem attempt lastErr st).2.trace =
          st.trace ++ tNew ∧
        (tNew.filter (fun q => decide (q.endpoint = ep))).length = rem ∧
        tNew.length = attemptIdx env st.trace.length rem - st.trace.length := by
  intro rem
  induction rem with
  | zero =>
    intro attempt lastErr st htrans
    refine ⟨rfl, by simp [makeLoop, makeLoopF], [], by simp [makeLoop, makeLoopF],
      rfl, by simp [attemptIdx]⟩
  | succ k ih =>
    intro attempt lastErr st htrans
    have h0 : TransAt env st.trace.length := htrans 0 (by omega)
    rcases h0 with hnet | ⟨h16, hok⟩
    · -- a network-level or empty-body failure
      have hcases : classify (env st.trace.length) = .transientEmpty ∨
          ∃ m, classify (env st.trace.length) = .netErr m := by
        revert hnet
        unfold netTransient
        cases classify (env st.trace.length) <;> simp
      have hsig : isRefreshSignal (env st.trace.length) = false := by
        unfold isRefreshSignal
        rcases hcases with h | ⟨m, h⟩ <;> rw [h]
      have hmsg : transientMsg (env st.trace.length) =
          (match classify (env st.trace.length) with
            | .netErr m => m
            | _ => "Empty JSON data") := by
        unfold transientMsg
        rcases hcases with h | ⟨m, h⟩ <;> rw [h]
      have hidx1 : attemptIdx env st.trace.length 1 = st.trace.length + 1 := by
        simp [attemptIdx, hsig]
      rcases hcases with hc | ⟨m, hc⟩
      all_goals {
        first
        | (have hstep : makeLoop env cfg ep none (f + 1) (k + 1) attempt lastErr st =
              makeLoop env cfg ep none (f + 1) k (attempt + 1) "Empty JSON data"
                (pushSleep cfg attempt
                  { st with trace := st.trace ++ [⟨ep, st.access_token⟩] }) := by
            simp only [makeLoop]
            conv =>
              lhs
              rw [makeLoopF]
            rw [hc]
            rfl)
        | (have hstep : makeLoop env cfg ep none (f + 1) (k + 1) attempt lastErr st =
              makeLoop env cfg ep none (f + 1) k (attempt + 1) m
                (pushSleep cfg attempt
                  { st with trace := st.trace ++ [⟨ep, st.access_token⟩] }) := by
            simp only [makeLoop]
            conv =>
              lhs
              rw [makeLoopF]
            rw [hc]
            rfl)
        have hlen1 : (pushSleep cfg attempt
            { st with trace := st.trace ++ [⟨ep, st.access_token⟩] }).trace.length =
            st.trace.length + 1 := by simp [pushSleep]
        have htrans' : ∀ i < k, TransAt env (attemptIdx env (pushSleep cfg attempt
            { st with trace := st.trace ++ [⟨ep, st.access_token⟩] }).trace.length i) := by
          intro i hi
          have hsh := htrans (i + 1) (by omega)
          rw [attemptIdx_succ_outer] at hsh
          rw [hlen1, ← hidx1]
          exact hsh
        obtain ⟨e1, e2, tNew, et, ef, el⟩ := ih (attempt + 1) _ _ htrans'
        rw [hstep]
        refine ⟨?_, ?_, ⟨ep, st.access_token⟩ :: tNew, ?_, ?_, ?_⟩
        · rw [e1, hlen1, ← hidx1, lastMsg_shift env st.trace.length k lastErr,
            hmsg, hc]
        · rw [e2]
          simp only [pushSleep]
          rw [range_map_pow_shift]
          simp
        · rw [et]
          simp [pushSleep]
        · simp only [List.filter]
          simp only [decide_eq_true_eq, decide_True, if_pos rfl]
          simp [ef]
        · simp only [List.length_cons]
          rw [el, hlen1, ← hidx1, ← attemptIdx_succ_outer]
          have hle1 : st.trace.length ≤ attemptIdx env st.trace.length 1 :=
            attemptIdx_le env st.trace.length 1
          have hle2 : attemptIdx env st.trace.length 1 ≤
              attemptIdx env st.trace.length (k + 1) := by
            rw [attemptIdx_succ_outer env st.trace.length k]
            exact attemptIdx_le env _ k
          omega
      }
    · -- the auth-expiry signal with a successful refresh
      have hc : classify (env st.trace.length) = .needsRefresh := by
        revert h16
        unfold isRefreshSignal
        cases classify (env st.trace.length) <;> simp
      have hsig : isRefreshSignal (env st.trace.length) = true := by
        unfold isRefreshSignal
        rw [hc]
      have hidx1 : attemptIdx env st.trace.length 1 = st.trace.length + 2 := by
        simp [attemptIdx, hsig]
      obtain ⟨p, hp⟩ : ∃ p, env (st.trace.length + 1) = .ok p := by
        revert hok
        unfold refreshOkResp
        cases henv : env (st.trace.length + 1) <;> simp
      rw [hp] at hok
      unfold refreshOkResp at hok
      simp only [Bool.and_eq_true, Option.isSome_iff_exists] at hok
      obtain ⟨⟨⟨a, ha⟩, ⟨r2, hr2⟩⟩, ⟨u, hu⟩⟩ := hok
      have hrefl := refresh_ok_step env cfg f
        { st with trace := st.trace ++ [⟨ep, st.access_token⟩] } p a r2 u hmax
        (by simpa using hp) ha hr2 hu
      have hstep : makeLoop env cfg ep none (f + 1) (k + 1) attempt lastErr st =
          makeLoop env cfg ep none (f + 1) k (attempt + 1)
            "Token refreshed, please retry"
            (pushSleep cfg attempt
              ⟨some a, some r2, some u,
                st.trace ++ [⟨ep, st.access_token⟩, ⟨.refreshTok, st.access_token⟩],
                st.sleeps⟩) := by
        simp only [makeLoop]
        conv =>
          lhs
          rw [makeLoopF]
        rw [hc]
        dsimp only
        simp only [Option.getD_none]
        rw [hrefl]
        simp [pushSleep, List.append_assoc]
      have hlen1 : (pushSleep cfg attempt
          (⟨some a, some r2, some u,
            st.trace ++ [⟨ep, st.access_token⟩, ⟨.refreshTok, st.access_token⟩],
            st.sleeps⟩ : PipeState)).trace.length = st.trace.length + 2 := by
        simp [pushSleep]
      have htrans' : ∀ i < k, TransAt env (attemptIdx env (pushSleep cfg attempt
          (⟨some a, some r2, some u,
            st.trace ++ [⟨ep, st.access_token⟩, ⟨.refreshTok, st.access_token⟩],
            st.sleeps⟩ : PipeState)).trace.length i) := by
        intro i hi
        have hsh := htrans (i + 1) (by omega)
        rw [attemptIdx_succ_outer] at hsh
        rw [hlen1, ← hidx1]
        exact hsh
      obtain ⟨e1, e2, tNew, et, ef, el⟩ := ih (attempt + 1) _ _ htrans'
      rw [hstep]
      refine ⟨?_, ?_,
        ⟨ep, st.access_token⟩ :: ⟨.refreshTok, st.access_token⟩ :: tNew,
        ?_, ?_, ?_⟩
      · have hmsg2 : transientMsg (env st.trace.length) =
            "Token refreshed, please retry" := by
          unfold transientMsg
          rw [hc]
        rw [e1, hlen1, ← hidx1, lastMsg_shift env st.trace.length k lastErr, hmsg2]
      · rw [e2]
        simp only [pushSleep]
        rw [range_map_pow_shift]
        simp
      · rw [et]
        simp [pushSleep]
      · have hne : (decide (Endpoint.refreshTok = ep)) = false := by
          simp
          intro h
          exact hep h.symm
        simp only [List.filter]
        simp only [decide_True, if_pos rfl]
        rw [hne]
        simp [ef]
      · simp only [List.length_cons]
        rw [el, hlen1, ← hidx1, ← attemptIdx_succ_outer]
        have hle1 : st.trace.length ≤ attemptIdx env st.trace.length 1 :=
          attemptIdx_le env st.trace.length 1
        have hle2 : attemptIdx env st.trace.length 1 ≤
            attemptIdx env st.trace.length (k + 1) := by
          rw [attemptIdx_succ_outer env st.trace.length k]
          exact attemptIdx_le env _ k
        omega

instance (env : Nat → Response) (i : Nat) : Decidable (TransAt env i) := by
  unfold TransAt
  infer_instance

/-- A mix of transient failures: an empty 500 body, then an auth-expiry
envelope whose refresh exchange succeeds, then network errors. -/
def envMix : Nat → Response
  | 0 => .emptyJson 500
  | 1 => .errResp "unauthenticated" (some 16) none
  | 2 => .ok ⟨some "A1", some "R1", some "U"⟩
  | _ => .httpError "boom"

/-- Claim C3: when every one of the `max_retries` attempts fails
transiently (a retryable envelope error with its refresh, a network-level
HTTP error, or an empty/malformed body), `_make_request` performs exactly
`max_retries` attempts, sleeping `initial_backoff * 2 ^ attempt` after
each failed attempt (so the delay between attempts doubles geometrically
from the configured initial backoff), then raises a terminal
`PikpakException` whose message carries the last observed failure reason,
and sends nothing further. -/
theorem C3_retry_budget
    (env : Nat → Response) (cfg : Config) (ep : Endpoint) (f : Nat)
    (st : PipeState)
    (hmax : 1 ≤ cfg.max_retries) (hep : ep ≠ Endpoint.refreshTok)
    (htrans : ∀ i < cfg.max_retries,
      TransAt env (attemptIdx env st.trace.length i)) :
    (make_request env cfg ep none (f + 1) st).1 =
      .err ("Max retries reached. Last error: " ++
        lastMsg env st.trace.length cfg.max_retries "None") ∧
    (make_request env cfg ep none (f + 1) st).2.sleeps =
      st.sleeps ++ (List.range cfg.max_retries).map
        (fun i => cfg.initial_backoff * 2 ^ i) ∧
    ∃ tNew,
      (make_request env cfg ep none (f + 1) st).2.trace = st.trace ++ tNew ∧
      (tNew.filter (fun q => decide (q.endpoint = ep))).length =
        cfg.max_retries ∧
      tNew.length =
        attemptIdx env st.trace.length cfg.max_retries - st.trace.length := by
  have h := makeLoop_budget env cfg ep f hmax hep cfg.max_retries 0 "None" st
    htrans
  have hmap : (List.range cfg.max_retries).map
      (fun i => cfg.initial_backoff * 2 ^ (0 + i)) =
      (List.range cfg.max_retries).map (fun i => cfg.initial_backoff * 2 ^ i) := by
    refine List.map_congr_left ?_
    intro i _
    simp
  exact ⟨h.1, by rw [← hmap]; exact h.2.1, h.2.2⟩

/-- Claim C3 witness: three consecutive transient failures of all three
shapes against the default three-attempt configuration. -/
theorem C3_retry_budget_witness :
    (make_request envMix cfgW (.api "files") none (4 + 1) stW).1 =
      .err ("Max retries reached. Last error: " ++
        lastMsg envMix stW.trace.length cfgW.max_retries "None") ∧
    (make_request envMix cfgW (.api "files") none (4 + 1) stW).2.sleeps =
      stW.sleeps ++ (List.range cfgW.max_retries).map
        (fun i => cfgW.initial_backoff * 2 ^ i) ∧
    ∃ tNew,
      (make_request envMix cfgW (.api "files") none (4 + 1) stW).2.trace =
        stW.trace ++ tNew ∧
      (tNew.filter (fun q => decide (q.endpoint = Endpoint.api "files"))).length =
        cfgW.max_retries ∧
      tNew.length =
        attemptIdx envMix stW.trace.length cfgW.max_retries - stW.trace.length :=
  C3_retry_budget envMix cfgW (.api "files") 4 stW (by decide) (by decide)
    (by decide)

/-! ### Claim C10 -/

/-- A string not containing the path separator. -/
def SlashFree (s : String) : Prop := '/' ∉ s.data

instance (s : String) : Decidable (SlashFree s) := by
  unfold SlashFree
  infer_instance

/-- Prefix closure of the cache: every cached key of the form
`/s1/.../sk` with `k ≥ 2` — read through slash-free segments, so the
decomposition is unique — has its parent key `/s1/.../s(k-1)` cached
too. -/
def PrefixClosed (c : Cache) : Prop :=
  ∀ (xs : List String) (x : String), xs ≠ [] →
    (∀ s ∈ xs, SlashFree s) → SlashFree x →
    (cacheFind c (mkKey (xs ++ [x]))).isSome = true →
    (cacheFind c (mkKey xs)).isSome = true

theorem append_slash_inj :
    ∀ (a : List Char) (b xs ys : List Char), '/' ∉ a → '/' ∉ b →
      a ++ '/' :: xs = b ++ '/' :: ys → a = b ∧ xs = ys := by
  intro a
  induction a with
  | nil =>
    intro b xs ys _ hb h
    cases b with
    | nil => simpa using h
    | cons c cs =>
      simp at h
      exfalso
      apply hb
      rw [← h.1]
      exact List.mem_cons_self '/' _
  | cons c cs ih =>
    intro b xs ys ha hb h
    cases b with
    | nil =>
      simp at h
      exfalso
      apply ha
      rw [h.1]
      exact List.mem_cons_self '/' _
    | cons d ds =>
      simp at h
      obtain ⟨hcd, hrest⟩ := h
      have := ih ds xs ys (fun hm => ha (List.mem_cons_of_mem c hm))
        (fun hm => hb (List.mem_cons_of_mem d hm)) hrest
      exact ⟨by rw [hcd, this.1], this.2⟩

theorem joinSlash_data_cons (s t : String) (rest : List String) :
    (joinSlash (s :: t :: rest)).data =
      s.data ++ '/' :: (joinSlash (t :: rest)).data := by
  show (s ++ "/" ++ joinSlash (t :: rest)).data = _
  rw [String.data_append, String.data_append, List.append_assoc]
  rfl

theorem joinSlash_cons_has_slash (s t : String) (rest : List String) :
    '/' ∈ (joinSlash (s :: t :: rest)).data := by
  rw [joinSlash_data_cons]
  simp

theorem joinSlash_inj :
    ∀ (xs ys : List String), xs ≠ [] → ys ≠ [] →
      (∀ s ∈ xs, SlashFree s) → (∀ s ∈ ys, SlashFree s) →
      joinSlash xs = joinSlash ys → xs = ys := by
  intro xs
  induction xs with
  | nil => intro ys h; exact absurd rfl h
  | cons x xs ih =>
    intro ys _ hys hfx hfy h
    cases ys with
    | nil => exact absurd rfl hys
    | cons y ys =>
      cases xs with
      | nil =>
        cases ys with
        | nil => simpa [joinSlash] using h
        | cons y2 ys2 =>
          exfalso
          apply hfx x (List.mem_cons_self x [])
          have : x.data = (joinSlash (y :: y2 :: ys2)).data := by
            rw [← h]
            rfl
          rw [this]
          exact joinSlash_cons_has_slash y y2 ys2
      | cons x2 xs2 =>
        cases ys with
        | nil =>
          exfalso
          apply hfy y (List.mem_cons_self y [])
          have : y.data = (joinSlash (x :: x2 :: xs2)).data := by
            rw [h]
            rfl
          rw [this]
          exact joinSlash_cons_has_slash x x2 xs2
        | cons y2 ys2 =>
          have hd : (joinSlash (x :: x2 :: xs2)).data =
              (joinSlash (y :: y2 :: ys2)).data := by rw [h]
          rw [joinSlash_data_cons, joinSlash_data_cons] at hd
          have hxy := append_slash_inj x.data y.data _ _
            (hfx x (List.mem_cons_self x _))
            (hfy y (List.mem_cons_self y _)) hd
          have hx : x = y := String.ext hxy.1
          have htail : x2 :: xs2 = y2 :: ys2 := by
            refine ih (y2 :: ys2) (by simp) (by simp)
              (fun s hs => hfx s (List.mem_cons_of_mem x hs))
              (fun s hs => hfy s (List.mem_cons_of_mem y hs))
              (String.ext hxy.2)
          rw [hx, htail]

theorem mkKey_inj (xs ys : List String) (hxs : xs ≠ []) (hys : ys ≠ [])
    (hfx : ∀ s ∈ xs, SlashFree s) (hfy : ∀ s ∈ ys, SlashFree s)
    (h : mkKey xs = mkKey ys) : xs = ys := by
  apply joinSlash_inj xs ys hxs hys hfx hfy
  have hd : (mkKey xs).data = (mkKey ys).data := by rw [h]
  unfold mkKey at hd
  rw [String.data_append, String.data_append] at hd
  exact String.ext (List.append_cancel_left hd)

theorem splitSlashAux_slashFree :
    ∀ (cs acc : List Char), '/' ∉ acc →
      ∀ s ∈ splitSlashAux cs acc, SlashFree s := by
  intro cs
  induction cs with
  | nil =>
    intro acc hacc s hs
    simp [splitSlashAux] at hs
    subst hs
    unfold SlashFree
    simpa using fun h => hacc (List.mem_reverse.mp h)
  | cons c cs ih =>
    intro acc hacc s hs
    by_cases hc : c = '/'
    · rw [splitSlashAux, if_pos hc] at hs
      rcases List.mem_cons.mp hs with h | h
      · subst h
        unfold SlashFree
        simpa using fun h => hacc (List.mem_reverse.mp h)
      · exact ih [] (by simp) s h
    · rw [splitSlashAux, if_neg hc] at hs
      refine ih (c :: acc) ?_ s hs
      intro hmem
      rcases List.mem_cons.mp hmem with h | h
      · exact hc h.symm
      · exact hacc h

theorem pyStrip_slashFree (s : String) (h : SlashFree s) :
    SlashFree (pyStrip s) := by
  unfold SlashFree at h ⊢
  unfold pyStrip
  intro hmem
  simp only [String.data] at hmem
  apply h
  have h1 := List.mem_reverse.mp hmem
  have h2 := List.dropWhile_sublist (l := (s.data.dropWhile Char.isWhitespace).reverse)
    (p := Char.isWhitespace) |>.subset h1
  have h3 := List.mem_reverse.mp h2
  exact (List.dropWhile_sublist (l := s.data) (p := Char.isWhitespace)).subset h3

theorem normSegs_slashFree (path : String) :
    ∀ s ∈ normSegs path, SlashFree s := by
  intro s hs
  unfold normSegs at hs
  rcases List.mem_map.mp hs with ⟨p, hp, hps⟩
  have hp2 := List.mem_of_mem_filter hp
  have := splitSlashAux_slashFree path.data [] (by simp) p hp2
  rw [← hps]
  exact pyStrip_slashFree p this

theorem cacheFind_insert (c : Cache) (k k' : String) (v : PathRec) :
    (cacheFind (cacheInsert c k' v) k).isSome = true ↔
      (k = k' ∨ (cacheFind c k).isSome = true) := by
  unfold cacheFind cacheInsert
  simp only [List.find?]
  by_cases h : k' = k
  · simp [h]
  · have : decide (k' = k) = false := by simpa using h
    rw [this]
    simp
    intro he
    exact absurd he.symm h

theorem scanPage_fst_find (segs : List String) (count : Nat) :
    ∀ (files : List FileEntry) (cache : Cache) (t : Option PathRec) (k : String),
      (cacheFind (scanPage segs count files cache t).1 k).isSome = true ↔
        ((cacheFind cache k).isSome = true ∨
          ∃ f ∈ files, k = mkKey (segs.take count ++ [f.name])) := by
  intro files
  induction files with
  | nil =>
    intro cache t k
    simp [scanPage]
  | cons f fs ih =>
    intro cache t k
    simp only [scanPage]
    rw [ih]
    rw [cacheFind_insert]
    constructor
    · rintro (⟨h | h⟩ | ⟨g, hg, hk⟩)
      · exact Or.inr ⟨f, List.mem_cons_self f fs, h⟩
      · exact Or.inl h
      · exact Or.inr ⟨g, List.mem_cons_of_mem f hg, hk⟩
    · rintro (h | ⟨g, hg, hk⟩)
      · exact Or.inl (Or.inr h)
      · rcases List.mem_cons.mp hg with h2 | h2
        · subst h2
          exact Or.inl (Or.inl hk)
        · exact Or.inr ⟨g, h2, hk⟩

theorem lastMatch_mem :
    ∀ (files : List FileEntry) (seg : String) (t : Option FileEntry)
      (f : FileEntry), lastMatch files seg t = some f →
      (f ∈ files ∧ f.name = seg) ∨ t = some f := by
  intro files
  induction files with
  | nil => intro seg t f h; exact Or.inr h
  | cons g gs ih =>
    intro seg t f h
    rw [lastMatch] at h
    rcases ih seg _ f h with ⟨hm, hn⟩ | ht
    · exact Or.inl ⟨List.mem_cons_of_mem g hm, hn⟩
    · by_cases hg : g.name = seg
      · rw [if_pos hg] at ht
        cases ht
        exact Or.inl ⟨List.mem_cons_self g gs, hg⟩
      · rw [if_neg hg] at ht
        exact Or.inr ht

theorem filterMap_length_filter {α β : Type} (f : α → Option β) :
    ∀ l : List α, (l.filterMap f).length =
      (l.filter (fun x => (f x).isSome)).length := by
  intro l
  induction l with
  | nil => rfl
  | cons x xs ih =>
    simp only [List.filterMap, List.filter]
    cases hfx : f x <;> simp [hfx, ih]

theorem chain_down (n : Nat) (p : Nat → Bool)
    (hchain : ∀ i, i + 1 < n → p (i + 1) = true → p i = true) :
    ∀ j, j < n → p j = true → ∀ i, i ≤ j → p i = true := by
  intro j
  induction j with
  | zero =>
    intro _ hp i hi
    have : i = 0 := Nat.le_zero.mp hi
    rw [this]
    exact hp
  | succ j ihj =>
    intro hj hp i hi
    rcases Nat.lt_or_ge i (j + 1) with h | h
    · refine ihj (by omega) (hchain j (by omega) hp) i (by omega)
    · have : i = j + 1 := by omega
      rw [this]
      exact hp

theorem chain_filter_range (n : Nat) (p : Nat → Bool)
    (hchain : ∀ i, i + 1 < n → p (i + 1) = true → p i = true) :
    ∀ j, j < ((List.range n).filter p).length → p j = true := by
  induction n with
  | zero => simp
  | succ n ihn =>
    intro j hj
    by_cases hpn : p n = true
    · have hjn : j ≤ n := by
        have h1 : ((List.range (n + 1)).filter p).length ≤ n + 1 := by
          calc ((List.range (n + 1)).filter p).length
              ≤ (List.range (n + 1)).length := List.length_filter_le _ _
            _ = n + 1 := by simp
        omega
      exact chain_down (n + 1) p hchain n (by omega) hpn j hjn
    · rw [List.range_succ, List.filter_append] at hj
      have hpn2 : p n = false := by simpa using hpn
      have : List.filter p [n] = [] := by
        simp [List.filter, hpn2]
      rw [this] at hj
      simp at hj
      exact ihn (fun i hi hp => hchain i (by omega) hp) j hj

/-- In a prefix-closed cache, the hits over a path's prefix chain form a
contiguous leading run: the first `hit count` levels are all hits. -/
theorem cache_hits_initial (cache : Cache) (segs : List String)
    (hclosed : PrefixClosed cache) (hsegs : ∀ s ∈ segs, SlashFree s) :
    ∀ j, j < (((List.range segs.length).map
        (fun i => mkKey (segs.take (i + 1)))).filterMap (cacheFind cache)).length →
      (cacheFind cache (mkKey (segs.take (j + 1)))).isSome = true := by
  intro j hj
  have hconv : (((List.range segs.length).map
        (fun i => mkKey (segs.take (i + 1)))).filterMap (cacheFind cache)).length =
      ((List.range segs.length).filter
        (fun i => (cacheFind cache (mkKey (segs.take (i + 1)))).isSome)).length := by
    rw [List.filterMap_map, filterMap_length_filter]
    rfl
  rw [hconv] at hj
  refine chain_filter_range segs.length
    (fun i => (cacheFind cache (mkKey (segs.take (i + 1)))).isSome) ?_ j hj
  intro i hi hp
  dsimp only at hp ⊢
  have htake : segs.take (i + 1 + 1) = segs.take (i + 1) ++ [segs[i + 1]] := by
    rw [List.take_succ]
    rw [List.getElem?_eq_getElem hi]
    rfl
  rw [htake] at hp
  refine hclosed (segs.take (i + 1)) segs[i + 1] ?_ ?_ ?_ hp
  · have : (segs.take (i + 1)).length = i + 1 := by
      rw [List.length_take]
      omega
    intro hnil
    rw [hnil] at this
    simp at this
  · intro s hs
    exact hsegs s (List.take_subset _ _ hs)
  · exact hsegs segs[i + 1] (List.getElem_mem hi)

/-- The resolution loop preserves prefix closure of the cache, assuming
all listed entry names are slash-free, given that the prefix of segments
already satisfied is itself cached (when non-trivial). -/
theorem resolveLoop_prefixClosed
    (file_list : Option String → Option String → ListResp)
    (create_folder : String → Option String → String)
    (create : Bool) (segs : List String)
    (hnames : ∀ parent tok f, f ∈ (file_list parent tok).files → SlashFree f.name)
    (hsegs : ∀ s ∈ segs, SlashFree s) :
    ∀ (fuel count : Nat) (parent tok : Option String) (chain : List PathRec)
      (cache : Cache) (tr : List RCall),
      PrefixClosed cache →
      (1 ≤ count → (cacheFind cache (mkKey (segs.take count))).isSome = true) →
      PrefixClosed (resolveLoop file_list create_folder create segs fuel count
        parent tok chain cache tr).cache := by
  intro fuel
  induction fuel with
  | zero =>
    intro count parent tok chain cache tr hcl hcnt
    unfold resolveLoop
    split <;> exact hcl
  | succ fuel ih =>
    intro count parent tok chain cache tr hcl hcnt
    by_cases h : count < segs.length
    · have hscl : PrefixClosed
          (scanPage segs count (file_list parent tok).files cache none).1 := by
        intro xs x hxs hfx hfxx hhit
        rw [scanPage_fst_find] at hhit
        rcases hhit with hold | ⟨f, hfmem, hk⟩
        · rw [scanPage_fst_find]
          exact Or.inl (hcl xs x hxs hfx hfxx hold)
        · have hfree1 : ∀ s ∈ xs ++ [x], SlashFree s := by
            intro s hs
            rcases List.mem_append.mp hs with h2 | h2
            · exact hfx s h2
            · simp at h2
              subst h2
              exact hfxx
          have hfree2 : ∀ s ∈ segs.take count ++ [f.name], SlashFree s := by
            intro s hs
            rcases List.mem_append.mp hs with h2 | h2
            · exact hsegs s (List.take_subset _ _ h2)
            · simp at h2
              subst h2
              exact hnames parent tok f hfmem
          have heq := mkKey_inj (xs ++ [x]) (segs.take count ++ [f.name])
            (by simp) (by simp) hfree1 hfree2 hk
          have hlen : xs.length = (segs.take count).length := by
            have h3 := congrArg List.length heq
            simp [List.length_take] at h3 ⊢
            omega
          have hxs2 : xs = segs.take count := (List.append_inj heq hlen).1
          have hc1 : 1 ≤ count := by
            by_contra hc
            have h0 : count = 0 := by omega
            rw [h0] at hxs2
            simp at hxs2
            exact hxs hxs2
          rw [hxs2, scanPage_fst_find]
          exact Or.inl (hcnt hc1)
      have hmono : ∀ k, (cacheFind cache k).isSome = true →
          (cacheFind (scanPage segs count (file_list parent tok).files
            cache none).1 k).isSome = true := by
        intro k hk
        rw [scanPage_fst_find]
        exact Or.inl hk
      cases hscan : (scanPage segs count (file_list parent tok).files cache none).2 with
      | some r =>
        rw [resolveLoop_step_match file_list create_folder create segs fuel count
          parent tok chain cache tr h r hscan]
        refine ih (count + 1) (some r.id) tok (chain ++ [r]) _ _ hscl ?_
        intro _
        rw [scanPage_snd] at hscan
        cases hlm : lastMatch (file_list parent tok).files (segs.getD count "")
            none with
        | none =>
          rw [hlm] at hscan
          cases hscan
        | some f0 =>
          rw [hlm] at hscan
          rcases lastMatch_mem _ _ _ _ hlm with ⟨hmem, hname⟩ | hfalse
          · have hgd : segs.getD count "" = segs[count] := by
              rw [List.getD_eq_getElem?_getD, List.getElem?_eq_getElem h]
              rfl
            have htk : segs.take (count + 1) = segs.take count ++ [segs[count]] := by
              rw [List.take_succ, List.getElem?_eq_getElem h]
              rfl
            rw [scanPage_fst_find]
            refine Or.inr ⟨f0, hmem, ?_⟩
            rw [htk]
            have hfn : f0.name = segs[count] := by rw [hname, hgd]
            rw [hfn]
          · cases hfalse
      | none =>
        cases hguard : (truthy (file_list parent tok).next_page_token &&
            (! truthy tok || decide (tok ≠ (file_list parent tok).next_page_token))) with
        | true =>
          rw [resolveLoop_step_advance file_list create_folder create segs fuel
            count parent tok chain cache tr h hscan hguard]
          exact ih count parent _ chain _ _ hscl (fun hc1 => hmono _ (hcnt hc1))
        | false =>
          cases hcreate : create with
          | false =>
            subst hcreate
            rw [resolveLoop_step_stop file_list create_folder segs fuel count
              parent tok chain cache tr h hscan hguard]
            exact hscl
          | true =>
            subst hcreate
            rw [resolveLoop_step_create file_list create_folder segs fuel count
              parent tok chain cache tr h hscan hguard]
            have htk : segs.take (count + 1) = segs.take count ++ [segs[count]] := by
              rw [List.take_succ, List.getElem?_eq_getElem h]
              rfl
            refine ih (count + 1) _ tok _ _ _ ?_ ?_
            · intro xs x hxs hfx hfxx hhit
              rw [cacheFind_insert] at hhit
              rcases hhit with hkey | hold
              · have hfree1 : ∀ s ∈ xs ++ [x], SlashFree s := by
                  intro s hs
                  rcases List.mem_append.mp hs with h2 | h2
                  · exact hfx s h2
                  · simp at h2
                    subst h2
                    exact hfxx
                have hfree2 : ∀ s ∈ segs.take (count + 1), SlashFree s := by
                  intro s hs
                  exact hsegs s (List.take_subset _ _ hs)
                have heq := mkKey_inj (xs ++ [x]) (segs.take (count + 1))
                  (by simp) ?_ hfree1 hfree2 hkey
                · rw [htk] at heq
                  have hlen : xs.length = (segs.take count).length := by
                    have h3 := congrArg List.length heq
                    simp [List.length_take] at h3 ⊢
                    omega
                  have hxs2 : xs = segs.take count := (List.append_inj heq hlen).1
                  have hc1 : 1 ≤ count := by
                    by_contra hc
                    have h0 : count = 0 := by omega
                    rw [h0] at hxs2
                    simp at hxs2
                    exact hxs hxs2
                  rw [hxs2, cacheFind_insert]
                  exact Or.inr (hmono _ (hcnt hc1))
                · rw [htk]
                  intro hcontra
                  simp at hcontra
                  subst hcontra
                  simp at h
              · rw [cacheFind_insert]
                exact Or.inr (hscl xs x hxs hfx hfxx hold)
            · intro _
              rw [cacheFind_insert]
              exact Or.inl rfl
    · rw [resolveLoop_done file_list create_folder create segs (fuel + 1) count
        parent tok chain cache tr h]
      exact hcl

/-- `path_to_id` preserves prefix closure of the cache when every listed
entry name is slash-free. -/
theorem path_to_id_prefixClosed
    (file_list : Option String → Option String → ListResp)
    (create_folder : String → Option String → String)
    (path : String) (create : Bool) (cache : Cache) (fuel : Nat)
    (hnames : ∀ parent tok f, f ∈ (file_list parent tok).files → SlashFree f.name)
    (hcl : PrefixClosed cache) :
    PrefixClosed (path_to_id file_list create_folder path create cache fuel).cache := by
  have hsegs := normSegs_slashFree path
  unfold path_to_id
  by_cases hp : path = ""
  · simp [hp]
    exact hcl
  · simp only [hp, if_false]
    set segs := normSegs path with hsegsdef
    set path_ids := ((List.range segs.length).map
      (fun i => mkKey (segs.take (i + 1)))).filterMap (cacheFind cache) with hpi
    by_cases hfull : path_ids.length = segs.length
    · simp only [hfull, if_true]
      exact hcl
    · simp only [hfull, if_false]
      by_cases hzero : path_ids.length = 0
      · simp only [hzero, if_true]
        exact resolveLoop_prefixClosed file_list create_folder create segs
          hnames hsegs fuel 0 none none [] cache [] hcl (by omega)
      · simp only [hzero, if_false]
        refine resolveLoop_prefixClosed file_list create_folder create segs
          hnames hsegs fuel path_ids.length _ none path_ids cache [] hcl ?_
        intro hge
        have hj := cache_hits_initial cache segs hcl hsegs (path_ids.length - 1)
          (by rw [← hpi]; omega)
        have : path_ids.length - 1 + 1 = path_ids.length := by omega
        rw [this] at hj
        exact hj

/-- One `path_to_id` call: its oracles and arguments. -/
structure ResolveCall where
  file_list : Option String → Option String → ListResp
  create_folder : String → Option String → String
  path : String
  create : Bool
  fuel : Nat

/-- A sequence of `path_to_id` calls threading the shared cache. -/
def runSeq : List ResolveCall → Cache → Cache
  | [], cache => cache
  | c :: rest, cache =>
    runSeq rest
      (path_to_id c.file_list c.create_folder c.path c.create cache c.fuel).cache

theorem runSeq_prefixClosed (calls : List ResolveCall)
    (hnames : ∀ c ∈ calls, ∀ parent tok f,
      f ∈ (c.file_list parent tok).files → SlashFree f.name) :
    ∀ cache : Cache, PrefixClosed cache → PrefixClosed (runSeq calls cache) := by
  induction calls with
  | nil => intro cache hcl; exact hcl
  | cons c rest ihc =>
    intro cache hcl
    exact ihc (fun d hd => hnames d (List.mem_cons_of_mem c hd)) _
      (path_to_id_prefixClosed c.file_list c.create_folder c.path c.create
        cache c.fuel (hnames c (List.mem_cons_self c rest)) hcl)

/-- Claim C10 counterexample: with a remote whose listing contains an
entry named `b/c`, one `path_to_id` call from the empty cache caches the
key `/b/c` — of the form `/s1/s2` with slash-free segments `b`, `c` —
without caching its parent `/b`, so the prefix-closure invariant fails. -/
theorem C10_counterexample :
    (cacheFind (path_to_id listSlash mkNew "/a" false [] 3).cache
      (mkKey (["b"] ++ ["c"]))).isSome = true ∧
    cacheFind (path_to_id listSlash mkNew "/a" false [] 3).cache
      (mkKey ["b"]) = none ∧
    ¬ PrefixClosed (path_to_id listSlash mkNew "/a" false [] 3).cache := by
  refine ⟨by decide, by decide, ?_⟩
  intro hcl
  have := hcl ["b"] "c" (by decide) (by decide) (by decide) (by decide)
  rw [show cacheFind (path_to_id listSlash mkNew "/a" false [] 3).cache
    (mkKey ["b"]) = none from by decide] at this
  cases this

/-- Claim C10 amended: starting from an empty `_path_id_cache`, after any
sequence of `path_to_id` calls (with or without `create`) against remotes
whose listed entry names never contain `/`, every cached key
`/s1/.../sk` with `k ≥ 2` has its parent key `/s1/.../s(k-1)` cached
too; consequently, for any query path the cache hits over its prefix
chain form a contiguous leading run, so the resume point computed from
the list of hits is well-defined. -/
theorem C10_cache_prefix_closure (calls : List ResolveCall)
    (hnames : ∀ c ∈ calls, ∀ parent tok f,
      f ∈ (c.file_list parent tok).files → SlashFree f.name) :
    PrefixClosed (runSeq calls []) ∧
    (∀ (path : String) (j : Nat),
      j < (((List.range (normSegs path).length).map
          (fun i => mkKey ((normSegs path).take (i + 1)))).filterMap
          (cacheFind (runSeq calls []))).length →
      (cacheFind (runSeq calls [])
        (mkKey ((normSegs path).take (j + 1)))).isSome = true) := by
  have hcl : PrefixClosed (runSeq calls []) := by
    refine runSeq_prefixClosed calls hnames [] ?_
    intro xs x hxs hfx hfxx hhit
    rw [cacheFind_nil] at hhit
    cases hhit
  refine ⟨hcl, ?_⟩
  intro path j hj
  exact cache_hits_initial (runSeq calls []) (normSegs path) hcl
    (normSegs_slashFree path) j hj

/-- Claim C10 witness: a two-call sequence against the scenario remote and
an empty listing, then the contiguity of hits for `/Movies/Action`. -/
theorem C10_cache_prefix_closure_witness :
    PrefixClosed (runSeq [⟨listMov, mkNew, "/Movies/Action", false, 2⟩,
      ⟨listEmpty, mkNew, "/NoSuch", false, 2⟩] []) ∧
    (∀ (path : String) (j : Nat),
      j < (((List.range (normSegs path).length).map
          (fun i => mkKey ((normSegs path).take (i + 1)))).filterMap
          (cacheFind (runSeq [⟨listMov, mkNew, "/Movies/Action", false, 2⟩,
            ⟨listEmpty, mkNew, "/NoSuch", false, 2⟩] []))).length →
      (cacheFind (runSeq [⟨listMov, mkNew, "/Movies/Action", false, 2⟩,
          ⟨listEmpty, mkNew, "/NoSuch", false, 2⟩] [])
        (mkKey ((normSegs path).take (j + 1)))).isSome = true) := by
  refine C10_cache_prefix_closure _ ?_
  intro c hc parent tok f hf
  rcases List.mem_cons.mp hc with h | h
  · subst h
    revert hf
    dsimp only
    unfold listMov
    rcases parent with _ | s <;> rcases tok with _ | t
    · intro hf
      simp at hf
      subst hf
      decide
    · intro hf
      simp at hf
    · intro hf
      by_cases hs : s = "F1"
      · subst hs
        simp at hf
        subst hf
        decide
      · simp [hs] at hf
    · intro hf
      simp at hf
  · rcases List.mem_cons.mp h with h2 | h2
    · subst h2
      revert hf
      dsimp only
      unfold listEmpty
      intro hf
      simp at hf
    · cases h2

end PikPak
